import Mathlib

/-!
Shallow embedding of the cloud-cost-optimisation engine in `src/Stream.py`
and `src/Streaml.py`.

Conventions of the embedding:
* Python numbers are `ℚ`; instance counts are `ℕ` (they are produced by
  `random.randint(0, k)` and clamped at 0 by `max(0, ...)`, which on
  non-negative integers coincides with truncated `ℕ` subtraction).
* A Python dict (a "configuration") is an association list
  `List (String × ℕ)` in insertion order; the dicts built by the code have
  pairwise-distinct keys.
* Code that can raise returns `Except PyError α`.  `next(...)` on an
  exhausted iterator raises `StopIteration` in a plain loop and
  `RuntimeError` inside a generator expression (PEP 479); division by zero
  raises `ZeroDivisionError`; `dict[k]` on a missing key raises `KeyError`;
  `random.choice([])` raises `IndexError`; `max([])` raises `ValueError`.
  `configurationError` is the designated error demanded by the spec's error
  taxonomy; the code never raises it.
* `random.random()` / integer draws are modelled by an explicit random
  source: two streams of values with cursor positions, threaded through
  every randomised operator.  A uniform choice among `n` alternatives is
  modelled as `ints pos % n`, which ranges over exactly the sampled set.
-/

/-- Errors the Python code can raise, plus the spec's designated
`ConfigurationError` (which the code never raises). -/
inductive PyError where
  | stopIteration
  | runtimeError
  | zeroDivision
  | keyError
  | indexError
  | valueError
  | configurationError
deriving DecidableEq

/-- Python division: raises `ZeroDivisionError` on a zero denominator. -/
def pyDiv (a b : ℚ) : Except PyError ℚ :=
  if b = 0 then .error .zeroDivision else .ok (a / b)

/-- An explicit random source: a stream of `random.random()` draws, a stream
of integer draws, and the current position in each. -/
structure RandomState where
  floats : ℕ → ℚ
  ints : ℕ → ℕ
  fpos : ℕ
  ipos : ℕ

/-- One `random.random()` draw. -/
def randFloat (rs : RandomState) : ℚ × RandomState :=
  (rs.floats rs.fpos, ⟨rs.floats, rs.ints, rs.fpos + 1, rs.ipos⟩)

/-- One uniform draw from `n` alternatives (`random.randint`, `random.choice`
index, `random.choices` index), as the next integer draw modulo `n`. -/
def randIntMod (n : ℕ) (rs : RandomState) : ℕ × RandomState :=
  (rs.ints rs.ipos % n, ⟨rs.floats, rs.ints, rs.fpos, rs.ipos + 1⟩)

/-- One record of `tfamily.json`: an instance descriptor. -/
structure InstanceSpec where
  instance_type : String
  vCPUs : ℚ
  memory_GiB : ℚ
  on_demand_hourly_price_usd : ℚ
deriving DecidableEq

/-- The in-memory catalog: the list of instance descriptors. -/
abbrev Catalog := List InstanceSpec

/-- A configuration: a dict from instance-type id to count, in insertion
order. -/
abbrev Config := List (String × ℕ)

/-- The key list of a configuration (`dict.keys()`, insertion order). -/
def keysOf (c : Config) : List String := c.map Prod.fst

/-- The id list of a catalog. -/
def catIds (cat : Catalog) : List String := cat.map (·.instance_type)

/-- `next(i for i in instances if i["instance_type"] == instance)`:
first catalog record with the given id, if any. -/
def findInstance (instances : Catalog) (name : String) : Option InstanceSpec :=
  instances.find? (fun i => i.instance_type == name)

namespace GAcore

/-- The accumulation loop at the top of `fitness` (both files, Stream.py
lines 11-16, Streaml.py lines 14-19): running totals of vCPUs, memory and
cost over the configuration's entries; a missing id makes the bare `next`
raise `StopIteration`. -/
def fitnessTotals (instances : Catalog) : Config → ℚ × ℚ × ℚ → Except PyError (ℚ × ℚ × ℚ)
  | [], acc => .ok acc
  | (name, count) :: rest, (tv, tm, tc) =>
    match findInstance instances name with
    | none => .error .stopIteration
    | some d =>
        fitnessTotals instances rest
          (tv + d.vCPUs * count, tm + d.memory_GiB * count,
           tc + d.on_demand_hourly_price_usd * count)

/-- `calculate_cost(configuration, instances)` (Stream.py lines 57-59,
Streaml.py lines 58-60): sum of `price * count` over the configuration; the
`next` inside the generator raises `RuntimeError` on a missing id
(PEP 479). -/
def calculate_cost (configuration : Config) (instances : Catalog) : Except PyError ℚ :=
  match configuration with
  | [] => .ok 0
  | (name, count) :: rest =>
    match findInstance instances name with
    | none => .error .runtimeError
    | some d =>
      match calculate_cost rest instances with
      | .error e => .error e
      | .ok s => .ok (d.on_demand_hourly_price_usd * count + s)

/-- The `sum(next(i["vCPUs"] ...) * count ...)` generator sums used by
Stream.py's `genetic_algorithm` (lines 47-50) and Streaml.py's
`scaling_analysis` (lines 72-79). -/
def sumVCPUs (instances : Catalog) : Config → Except PyError ℚ
  | [] => .ok 0
  | (name, count) :: rest =>
    match findInstance instances name with
    | none => .error .runtimeError
    | some d =>
      match sumVCPUs instances rest with
      | .error e => .error e
      | .ok s => .ok (d.vCPUs * count + s)

/-- Memory counterpart of `sumVCPUs`. -/
def sumMemory (instances : Catalog) : Config → Except PyError ℚ
  | [] => .ok 0
  | (name, count) :: rest =>
    match findInstance instances name with
    | none => .error .runtimeError
    | some d =>
      match sumMemory instances rest with
      | .error e => .error e
      | .ok s => .ok (d.memory_GiB * count + s)

/-- `crossover(parent1, parent2)` (identical in both files): one coin per key
of `parent1`, taking the count from `parent1` on heads and from `parent2`
on tails; `parent2[key]` raises `KeyError` when `parent2` lacks the key. -/
def crossover : Config → Config → RandomState → Except PyError (Config × RandomState)
  | [], _, rs => .ok ([], rs)
  | (key, v1) :: rest, parent2, rs =>
    let (r, rs1) := randFloat rs
    if r < 1/2 then
      match crossover rest parent2 rs1 with
      | .error e => .error e
      | .ok (others, rs2) => .ok ((key, v1) :: others, rs2)
    else
      match List.lookup key parent2 with
      | none => .error .keyError
      | some v2 =>
        match crossover rest parent2 rs1 with
        | .error e => .error e
        | .ok (others, rs2) => .ok ((key, v2) :: others, rs2)

/-- `solution[instance] = v`: replace the value stored at an existing key,
keeping the dict's key order. -/
def setKey : Config → String → ℕ → Config
  | [], _, _ => []
  | (k, v) :: rest, key, newV =>
    if k = key then (k, newV) :: rest else (k, v) :: setKey rest key newV

/-- Placeholder key used with `getD`; never selected because the chosen
index is always below the key-list length. -/
def noKey : String := ""

/-- `mutate(solution, mutation_rate)` (identical in both files): with
probability `mutation_rate` pick one key uniformly and move its count by
`random.choice([-1, 1])`, clamped at 0 (`max(0, ...)`, i.e. truncated `ℕ`
subtraction); `random.choice` on an empty key list raises `IndexError`. -/
def mutate (solution : Config) (mutation_rate : ℚ) (rs : RandomState) :
    Except PyError (Config × RandomState) :=
  let (r, rs1) := randFloat rs
  if r < mutation_rate then
    if solution.length = 0 then .error .indexError
    else
      let (idx, rs2) := randIntMod solution.length rs1
      let key := (keysOf solution).getD idx noKey
      let (j, rs3) := randIntMod 2 rs2
      let oldV := (List.lookup key solution).getD 0
      let newV := if j = 0 then oldV - 1 else oldV + 1
      .ok (setKey solution key newV, rs3)
  else .ok (solution, rs1)

/-- Decorate each population member with its fitness score, in order (the
`key=` evaluation done by `list.sort` / `max`); any fitness error
propagates. -/
def scorePop (fitF : Config → Except PyError ℚ) : List Config → Except PyError (List (Config × ℚ))
  | [] => .ok []
  | c :: rest =>
    match fitF c with
    | .error e => .error e
    | .ok s =>
      match scorePop fitF rest with
      | .error e => .error e
      | .ok others => .ok ((c, s) :: others)

/-- Insert into a list sorted by descending score, after every element with a
score `≥` the new one encountered so far other than strictly smaller ones:
the new element moves past `y` only when `y` scores strictly higher, which
keeps earlier elements first on ties (stability, as Python's sort). -/
def insertDesc (x : Config × ℚ) : List (Config × ℚ) → List (Config × ℚ)
  | [] => [x]
  | y :: ys => if x.2 < y.2 then y :: insertDesc x ys else x :: y :: ys

/-- Stable sort by descending score (`population.sort(key=..., reverse=True)`). -/
def sortDesc : List (Config × ℚ) → List (Config × ℚ)
  | [] => []
  | x :: xs => insertDesc x (sortDesc xs)

/-- `max(population, key=...)` inner fold: keep the current best, replacing it
only on a strictly higher score (Python's `max` returns the first maximal
element). -/
def maxByAux (fitF : Config → Except PyError ℚ) : Config → ℚ → List Config → Except PyError Config
  | best, _, [] => .ok best
  | best, bs, c :: rest =>
    match fitF c with
    | .error e => .error e
    | .ok s => if bs < s then maxByAux fitF c s rest else maxByAux fitF best bs rest

/-- `max(population, key=...)`: raises `ValueError` on an empty population. -/
def maxByFitness (fitF : Config → Except PyError ℚ) : List Config → Except PyError Config
  | [] => .error .valueError
  | c :: rest =>
    match fitF c with
    | .error e => .error e
    | .ok s => maxByAux fitF c s rest

/-- `random.choices(pool, k=2)`: two independent uniform picks with
replacement; raises `IndexError` on an empty pool. -/
def choices2 (pool : List Config) (rs : RandomState) :
    Except PyError (Config × Config × RandomState) :=
  if pool.length = 0 then .error .indexError
  else
    let (i, rs1) := randIntMod pool.length rs
    let (j, rs2) := randIntMod pool.length rs1
    .ok (pool.getD i [], pool.getD j [], rs2)

/-- The `while len(new_population) < pop_size` loop body, run `n` times:
sample two parents from the top-10 slice, crossover, mutate, append. -/
def buildChildren (topTen : List Config) (mutation_rate : ℚ) :
    ℕ → RandomState → Except PyError (List Config × RandomState)
  | 0, rs => .ok ([], rs)
  | n + 1, rs =>
    match choices2 topTen rs with
    | .error e => .error e
    | .ok (p1, p2, rs1) =>
      match crossover p1 p2 rs1 with
      | .error e => .error e
      | .ok (child0, rs2) =>
        match mutate child0 mutation_rate rs2 with
        | .error e => .error e
        | .ok (child, rs3) =>
          match buildChildren topTen mutation_rate n rs3 with
          | .error e => .error e
          | .ok (others, rs4) => .ok (child :: others, rs4)

/-- One generation: sort the population by descending fitness, keep the top
two, and refill with crossover-plus-mutation children of parents sampled
from the top ten. -/
def nextGeneration (fitF : Config → Except PyError ℚ) (pop_size : ℕ) (mutation_rate : ℚ)
    (pop : List Config) (rs : RandomState) : Except PyError (List Config × RandomState) :=
  match scorePop fitF pop with
  | .error e => .error e
  | .ok scored =>
    match buildChildren (((sortDesc scored).map Prod.fst).take 10) mutation_rate
        (pop_size - (((sortDesc scored).map Prod.fst).take 2).length) rs with
    | .error e => .error e
    | .ok (children, rs1) =>
      .ok (((sortDesc scored).map Prod.fst).take 2 ++ children, rs1)

/-- The `for _ in range(generations)` loop. -/
def gaLoop (fitF : Config → Except PyError ℚ) (pop_size : ℕ) (mutation_rate : ℚ) :
    ℕ → List Config → RandomState → Except PyError (List Config × RandomState)
  | 0, pop, rs => .ok (pop, rs)
  | g + 1, pop, rs =>
    match nextGeneration fitF pop_size mutation_rate pop rs with
    | .error e => .error e
    | .ok (pop1, rs1) => gaLoop fitF pop_size mutation_rate g pop1 rs1

/-- `[generate_solution(instances) for _ in range(pop_size)]`, for a given
per-solution generator. -/
def initPopulation (genF : RandomState → Config × RandomState) :
    ℕ → RandomState → List Config × RandomState
  | 0, rs => ([], rs)
  | n + 1, rs =>
    let (c, rs1) := genF rs
    let (rest, rs2) := initPopulation genF n rs1
    (c :: rest, rs2)

end GAcore

namespace StreamPy

/-- `fitness` of `src/Stream.py` (lines 10-21): zero when infeasible;
otherwise `(1 / total_cost) * (total_vCPUs / required_vCPUs) *
(total_memory / required_memory_GiB)`, with each division able to raise
`ZeroDivisionError` in evaluation order. -/
def fitness (solution : Config) (instances : Catalog)
    (required_vCPUs required_memory_GiB : ℚ) : Except PyError ℚ :=
  match GAcore.fitnessTotals instances solution (0, 0, 0) with
  | .error e => .error e
  | .ok (tv, tm, tc) =>
    if tv < required_vCPUs ∨ tm < required_memory_GiB then .ok 0
    else
      match pyDiv 1 tc with
      | .error e => .error e
      | .ok a =>
        match pyDiv tv required_vCPUs with
        | .error e => .error e
        | .ok b =>
          match pyDiv tm required_memory_GiB with
          | .error e => .error e
          | .ok c => .ok (a * b * c)

/-- `generate_solution` of `src/Stream.py` (lines 23-24): one
`random.randint(0, 2)` count per catalog record, keyed by its id. -/
def generate_solution : Catalog → RandomState → Config × RandomState
  | [], rs => ([], rs)
  | spec :: rest, rs =>
    let (v, rs1) := randIntMod 3 rs
    let (others, rs2) := generate_solution rest rs1
    ((spec.instance_type, v) :: others, rs2)

/-- `genetic_algorithm` of `src/Stream.py` (lines 35-55): evolve
`generations` rounds from a random population, take the fittest member of
the final population, then re-check feasibility and return `None`
(modelled as `none`) when the winner misses the requirement. -/
def genetic_algorithm (instances : Catalog) (required_vCPUs required_memory_GiB : ℚ)
    (pop_size generations : ℕ) (mutation_rate : ℚ) (rs : RandomState) :
    Except PyError (Option Config) :=
  let fitF := fun c => fitness c instances required_vCPUs required_memory_GiB
  let (pop0, rs0) := GAcore.initPopulation (generate_solution instances) pop_size rs
  match GAcore.gaLoop fitF pop_size mutation_rate generations pop0 rs0 with
  | .error e => .error e
  | .ok (popF, _) =>
    match GAcore.maxByFitness fitF popF with
    | .error e => .error e
    | .ok best =>
      match GAcore.sumVCPUs instances best with
      | .error e => .error e
      | .ok tv =>
        match GAcore.sumMemory instances best with
        | .error e => .error e
        | .ok tm =>
          if tv < required_vCPUs ∨ tm < required_memory_GiB then .ok none
          else .ok (some best)

/-- `scaling_analysis` of `src/Stream.py` (lines 61-83): compares the
current cost against the optimiser's result; a falsy optimiser result
(`None` or the empty dict) yields `("Upgrade", None, current_cost, 0)`;
Downgrade needs savings above 5 AND both utilisation figures below the
hard-coded threshold 80; zero-count entries are filtered from the
returned configuration. -/
def scaling_analysis (current_config : Config) (avgVCPUs avgMemory : ℚ)
    (instances : Catalog) (rs : RandomState) :
    Except PyError (String × Option Config × ℚ × ℚ) :=
  match GAcore.calculate_cost current_config instances with
  | .error e => .error e
  | .ok current_cost =>
    match genetic_algorithm instances avgVCPUs avgMemory 20 100 (1/10) rs with
    | .error e => .error e
    | .ok none => .ok ("Upgrade", none, current_cost, 0)
    | .ok (some cfg) =>
      if cfg = [] then .ok ("Upgrade", none, current_cost, 0)
      else
        match GAcore.calculate_cost cfg instances with
        | .error e => .error e
        | .ok optimal_cost =>
          let savings := current_cost - optimal_cost
          let decision :=
            if current_cost < optimal_cost then "Upgrade"
            else if 5 < savings ∧ avgVCPUs < 80 ∧ avgMemory < 80 then "Downgrade"
            else "Optimal"
          .ok (decision, some (cfg.filter (fun kv => decide (0 < kv.2))), optimal_cost, savings)

end StreamPy

namespace StreamlPy

/-- `fitness` of `src/Streaml.py` (lines 13-27): zero when infeasible;
otherwise `(1 / total_cost) / (1 + resource_surplus)` where
`resource_surplus` is the sum of the two surplus ratios, with each division
able to raise `ZeroDivisionError` in evaluation order. -/
def fitness (solution : Config) (instances : Catalog)
    (required_vCPUs required_memory_GiB : ℚ) : Except PyError ℚ :=
  match GAcore.fitnessTotals instances solution (0, 0, 0) with
  | .error e => .error e
  | .ok (tv, tm, tc) =>
    if tv < required_vCPUs ∨ tm < required_memory_GiB then .ok 0
    else
      match pyDiv (tv - required_vCPUs) required_vCPUs with
      | .error e => .error e
      | .ok s1 =>
        match pyDiv (tm - required_memory_GiB) required_memory_GiB with
        | .error e => .error e
        | .ok s2 =>
          match pyDiv 1 tc with
          | .error e => .error e
          | .ok a => pyDiv a (1 + (s1 + s2))

/-- `generate_solution` of `src/Streaml.py` (lines 30-31): one
`random.randint(0, 5)` count per catalog record, keyed by its id. -/
def generate_solution : Catalog → RandomState → Config × RandomState
  | [], rs => ([], rs)
  | spec :: rest, rs =>
    let (v, rs1) := randIntMod 6 rs
    let (others, rs2) := generate_solution rest rs1
    ((spec.instance_type, v) :: others, rs2)

/-- `genetic_algorithm` of `src/Streaml.py` (lines 45-55): evolve
`generations` rounds from a random population and return the fittest member
of the final population, with no feasibility re-check. -/
def genetic_algorithm (instances : Catalog) (required_vCPUs required_memory_GiB : ℚ)
    (pop_size generations : ℕ) (mutation_rate : ℚ) (rs : RandomState) :
    Except PyError Config :=
  let fitF := fun c => fitness c instances required_vCPUs required_memory_GiB
  let (pop0, rs0) := GAcore.initPopulation (generate_solution instances) pop_size rs
  match GAcore.gaLoop fitF pop_size mutation_rate generations pop0 rs0 with
  | .error e => .error e
  | .ok (popF, _) => GAcore.maxByFitness fitF popF

/-- `scaling_analysis` of `src/Streaml.py` (lines 63-91): a falsy (empty)
optimiser result yields `("Upgrade", None, current_cost, 0)`; otherwise the
candidate's aggregates are re-checked against the requirement and an
infeasible candidate also yields `("Upgrade", None, current_cost, 0)`;
otherwise Upgrade/Downgrade/Optimal is decided from the two costs alone,
with the fixed savings threshold 5. -/
def scaling_analysis (current_config : Config) (avgVCPUs avgMemory : ℚ)
    (instances : Catalog) (rs : RandomState) :
    Except PyError (String × Option Config × ℚ × ℚ) :=
  match GAcore.calculate_cost current_config instances with
  | .error e => .error e
  | .ok current_cost =>
    match genetic_algorithm instances avgVCPUs avgMemory 20 100 (1/10) rs with
    | .error e => .error e
    | .ok cfg =>
      if cfg = [] then .ok ("Upgrade", none, current_cost, 0)
      else
        match GAcore.calculate_cost cfg instances with
        | .error e => .error e
        | .ok optimal_cost =>
          match GAcore.sumVCPUs instances cfg with
          | .error e => .error e
          | .ok tv =>
            match GAcore.sumMemory instances cfg with
            | .error e => .error e
            | .ok tm =>
              if tv < avgVCPUs ∨ tm < avgMemory then .ok ("Upgrade", none, current_cost, 0)
              else
                let decision :=
                  if current_cost < optimal_cost then "Upgrade"
                  else if 5 < current_cost - optimal_cost then "Downgrade"
                  else "Optimal"
                .ok (decision, some cfg, optimal_cost, current_cost - optimal_cost)

end StreamlPy

/-- Aggregate vCPUs of a configuration: the sum of `count × spec.vcpus`
over its entries, each id resolved against the catalog (a missing id
contributes nothing; the theorems below always resolve every id). -/
def aggVCPUs : Config → Catalog → ℚ
  | [], _ => 0
  | (name, count) :: rest, cat =>
    (match findInstance cat name with
     | some d => d.vCPUs * count
     | none => 0) + aggVCPUs rest cat

/-- Aggregate memory of a configuration: the sum of `count × spec.memory_gib`
over its entries. -/
def aggMemory : Config → Catalog → ℚ
  | [], _ => 0
  | (name, count) :: rest, cat =>
    (match findInstance cat name with
     | some d => d.memory_GiB * count
     | none => 0) + aggMemory rest cat

/-- Aggregate hourly cost of a configuration as the spec words it: the sum
of `count_i × price_i` over its entries. -/
def aggCost : Config → Catalog → ℚ
  | [], _ => 0
  | (name, count) :: rest, cat =>
    (match findInstance cat name with
     | some d => (count : ℚ) * d.on_demand_hourly_price_usd
     | none => 0) + aggCost rest cat

/-- Demonstration instance id. -/
def idA : String := "A"

/-- Demonstration catalog record: 100 vCPUs, 100 GiB, one dollar per hour. -/
def specA : InstanceSpec := ⟨idA, 100, 100, 1⟩

/-- Demonstration single-instance catalog. -/
def catA : Catalog := [specA]

/-- The configuration holding `k` units of the demonstration instance. -/
def cfgA (k : ℕ) : Config := [(idA, k)]

/-- A random source whose float stream is constantly `1/2` (so mutation with
rate `1/10` never fires and crossover always takes the second parent) and
whose integer stream is constantly `n`. -/
def constRand (n fp ip : ℕ) : RandomState := ⟨fun _ => 1/2, fun _ => n, fp, ip⟩

/-- Second demonstration id, for the two-instance catalog of the cost
example. -/
def idB : String := "B"

/-- Cost-example record A: 2 vCPUs, 4 GiB, 0.10 dollars per hour. -/
def specCostA : InstanceSpec := ⟨idA, 2, 4, 1/10⟩

/-- Cost-example record B: 4 vCPUs, 8 GiB, 0.20 dollars per hour. -/
def specCostB : InstanceSpec := ⟨idB, 4, 8, 1/5⟩

/-- The two-instance catalog of the spec's cost example. -/
def catAB : Catalog := [specCostA, specCostB]

/-- An id deliberately absent from the demonstration catalogs. -/
def idZ : String := "zz"

section Helpers

/-- Unfolding lemma: catalog lookup on a cons cell. -/
theorem findInstance_cons (d : InstanceSpec) (rest : Catalog) (k : String) :
    findInstance (d :: rest) k =
      if d.instance_type = k then some d else findInstance rest k := by
  by_cases hd : d.instance_type = k <;> simp [findInstance, List.find?_cons, hd]

/-- An id drawn from the catalog's own id list is always resolvable. -/
theorem findInstance_isSome_of_mem_catIds {cat : Catalog} {k : String}
    (h : k ∈ catIds cat) : (findInstance cat k).isSome := by
  induction cat with
  | nil => simp [catIds] at h
  | cons d rest ih =>
    rw [findInstance_cons]
    by_cases hd : d.instance_type = k
    · simp [hd]
    · have hk : k ∈ catIds rest := by
        simp [catIds] at h ⊢
        rcases h with h | h
        · exact absurd h.symm hd
        · exact h
      simpa [hd] using ih hk

/-- A resolved instance descriptor is a member of the catalog. -/
theorem mem_of_findInstance {cat : Catalog} {k : String} {d : InstanceSpec}
    (h : findInstance cat k = some d) : d ∈ cat :=
  List.mem_of_find?_eq_some h

/-- When every id of the configuration resolves, the fitness accumulation
loop succeeds and returns the three aggregates shifted by the initial
accumulator. -/
theorem fitnessTotals_eq_agg {cat : Catalog} {sol : Config}
    (hids : ∀ k ∈ keysOf sol, (findInstance cat k).isSome) (a b c : ℚ) :
    GAcore.fitnessTotals cat sol (a, b, c) =
      .ok (a + aggVCPUs sol cat, b + aggMemory sol cat, c + aggCost sol cat) := by
  induction sol generalizing a b c with
  | nil => simp [GAcore.fitnessTotals, aggVCPUs, aggMemory, aggCost]
  | cons kv rest ih =>
    obtain ⟨name, count⟩ := kv
    obtain ⟨d, hd⟩ := Option.isSome_iff_exists.mp (hids name (by simp [keysOf]))
    have hrest : ∀ k ∈ keysOf rest, (findInstance cat k).isSome := by
      intro k hk; exact hids k (by simp [keysOf] at hk ⊢; exact Or.inr hk)
    simp only [GAcore.fitnessTotals, hd]
    rw [ih hrest]
    simp only [aggVCPUs, aggMemory, aggCost, hd]
    congr 2
    · ring
    · congr 1 <;> ring

/-- A successful fitness accumulation resolves every id of the
configuration. -/
theorem fitnessTotals_ids {cat : Catalog} {sol : Config} {acc t : ℚ × ℚ × ℚ}
    (h : GAcore.fitnessTotals cat sol acc = .ok t) :
    ∀ k ∈ keysOf sol, (findInstance cat k).isSome := by
  induction sol generalizing acc with
  | nil => intro k hk; simp [keysOf] at hk
  | cons kv rest ih =>
    obtain ⟨name, count⟩ := kv
    obtain ⟨tv, tm, tc⟩ := acc
    intro k hk
    rw [GAcore.fitnessTotals] at h
    rcases hfind : findInstance cat name with _ | d
    · rw [hfind] at h; exact absurd h (by simp)
    · rw [hfind] at h
      simp [keysOf] at hk
      rcases hk with hk | hk
      · subst hk; simp [hfind]
      · exact ih h k (by simpa [keysOf] using hk)

/-- When every id resolves, `calculate_cost` succeeds and returns the
aggregate cost (the literal sum of `count × price`). -/
theorem calculate_cost_eq_agg {cat : Catalog} {sol : Config}
    (hids : ∀ k ∈ keysOf sol, (findInstance cat k).isSome) :
    GAcore.calculate_cost sol cat = .ok (aggCost sol cat) := by
  induction sol with
  | nil => simp [GAcore.calculate_cost, aggCost]
  | cons kv rest ih =>
    obtain ⟨name, count⟩ := kv
    obtain ⟨d, hd⟩ := Option.isSome_iff_exists.mp (hids name (by simp [keysOf]))
    have hrest : ∀ k ∈ keysOf rest, (findInstance cat k).isSome := by
      intro k hk; exact hids k (by simp [keysOf] at hk ⊢; exact Or.inr hk)
    rw [GAcore.calculate_cost]
    simp only [hd, ih hrest]
    simp only [aggCost, hd]
    congr 1
    ring

/-- When every id resolves, the generator-expression vCPU sum succeeds and
returns the aggregate. -/
theorem sumVCPUs_eq_agg {cat : Catalog} {sol : Config}
    (hids : ∀ k ∈ keysOf sol, (findInstance cat k).isSome) :
    GAcore.sumVCPUs cat sol = .ok (aggVCPUs sol cat) := by
  induction sol with
  | nil => simp [GAcore.sumVCPUs, aggVCPUs]
  | cons kv rest ih =>
    obtain ⟨name, count⟩ := kv
    obtain ⟨d, hd⟩ := Option.isSome_iff_exists.mp (hids name (by simp [keysOf]))
    have hrest : ∀ k ∈ keysOf rest, (findInstance cat k).isSome := by
      intro k hk; exact hids k (by simp [keysOf] at hk ⊢; exact Or.inr hk)
    rw [GAcore.sumVCPUs]
    simp only [hd, ih hrest]
    simp [aggVCPUs, hd]

/-- When every id resolves, the generator-expression memory sum succeeds and
returns the aggregate. -/
theorem sumMemory_eq_agg {cat : Catalog} {sol : Config}
    (hids : ∀ k ∈ keysOf sol, (findInstance cat k).isSome) :
    GAcore.sumMemory cat sol = .ok (aggMemory sol cat) := by
  induction sol with
  | nil => simp [GAcore.sumMemory, aggMemory]
  | cons kv rest ih =>
    obtain ⟨name, count⟩ := kv
    obtain ⟨d, hd⟩ := Option.isSome_iff_exists.mp (hids name (by simp [keysOf]))
    have hrest : ∀ k ∈ keysOf rest, (findInstance cat k).isSome := by
      intro k hk; exact hids k (by simp [keysOf] at hk ⊢; exact Or.inr hk)
    rw [GAcore.sumMemory]
    simp only [hd, ih hrest]
    simp [aggMemory, hd]

/-- Under positive prices and non-negative vCPU figures, the aggregate cost
is non-negative and positive whenever the aggregate vCPU total is. -/
theorem aggCost_pos {cat : Catalog} {sol : Config}
    (hids : ∀ k ∈ keysOf sol, (findInstance cat k).isSome)
    (hcat : ∀ d ∈ cat, 0 < d.on_demand_hourly_price_usd ∧ 0 ≤ d.vCPUs) :
    0 ≤ aggCost sol cat ∧ (0 < aggVCPUs sol cat → 0 < aggCost sol cat) := by
  induction sol with
  | nil => simp [aggCost, aggVCPUs]
  | cons kv rest ih =>
    obtain ⟨name, count⟩ := kv
    obtain ⟨d, hd⟩ := Option.isSome_iff_exists.mp (hids name (by simp [keysOf]))
    have hrest : ∀ k ∈ keysOf rest, (findInstance cat k).isSome := by
      intro k hk; exact hids k (by simp [keysOf] at hk ⊢; exact Or.inr hk)
    obtain ⟨hp, hv⟩ := hcat d (mem_of_findInstance hd)
    obtain ⟨ih0, ihpos⟩ := ih hrest
    have hcount : (0 : ℚ) ≤ (count : ℚ) := Nat.cast_nonneg count
    have hterm0 : (0 : ℚ) ≤ (count : ℚ) * d.on_demand_hourly_price_usd :=
      mul_nonneg hcount hp.le
    constructor
    · simp only [aggCost, hd]
      exact add_nonneg hterm0 ih0
    · intro hpos
      simp only [aggVCPUs, hd] at hpos
      simp only [aggCost, hd]
      rcases lt_or_le 0 (aggVCPUs rest cat) with h | h
      · exact add_pos_of_nonneg_of_pos hterm0 (ihpos h)
      · have hterm : 0 < d.vCPUs * (count : ℚ) := by
          by_contra hcon
          push_neg at hcon
          have hsum : d.vCPUs * (count : ℚ) + aggVCPUs rest cat ≤ 0 + 0 :=
            add_le_add hcon h
          rw [add_zero] at hsum
          exact absurd hpos (not_lt.mpr hsum)
        have hc0 : count ≠ 0 := by
          rintro rfl
          simp at hterm
        have hcpos : (0 : ℚ) < (count : ℚ) :=
          Nat.cast_pos.mpr (Nat.pos_of_ne_zero hc0)
        exact add_pos_of_pos_of_nonneg (mul_pos hcpos hp) ih0

end Helpers

section FitnessLemmas

/-- A strictly positive Stream.py fitness value forces the feasibility
branch: both aggregates meet the requirement. -/
theorem streamPy_fitness_pos_feasible {sol : Config} {cat : Catalog} {reqV reqM s : ℚ}
    (h : StreamPy.fitness sol cat reqV reqM = .ok s) (hs : 0 < s) :
    reqV ≤ aggVCPUs sol cat ∧ reqM ≤ aggMemory sol cat := by
  rw [StreamPy.fitness] at h
  split at h
  · exact absurd h (by simp)
  · rename_i tv tm tc heq
    have hagg := fitnessTotals_eq_agg (fitnessTotals_ids heq) 0 0 0
    rw [heq] at hagg
    injection hagg with hagg
    simp only [Prod.mk.injEq, zero_add] at hagg
    obtain ⟨hv, hm, -⟩ := hagg
    by_cases hfeas : tv < reqV ∨ tm < reqM
    · rw [if_pos hfeas] at h
      injection h with h
      rw [← h] at hs
      exact absurd hs (lt_irrefl 0)
    · push_neg at hfeas
      exact ⟨hv ▸ hfeas.1, hm ▸ hfeas.2⟩

/-- A strictly positive Streaml.py fitness value forces the feasibility
branch: both aggregates meet the requirement. -/
theorem streamlPy_fitness_pos_feasible {sol : Config} {cat : Catalog} {reqV reqM s : ℚ}
    (h : StreamlPy.fitness sol cat reqV reqM = .ok s) (hs : 0 < s) :
    reqV ≤ aggVCPUs sol cat ∧ reqM ≤ aggMemory sol cat := by
  rw [StreamlPy.fitness] at h
  split at h
  · exact absurd h (by simp)
  · rename_i tv tm tc heq
    have hagg := fitnessTotals_eq_agg (fitnessTotals_ids heq) 0 0 0
    rw [heq] at hagg
    injection hagg with hagg
    simp only [Prod.mk.injEq, zero_add] at hagg
    obtain ⟨hv, hm, -⟩ := hagg
    by_cases hfeas : tv < reqV ∨ tm < reqM
    · rw [if_pos hfeas] at h
      injection h with h
      rw [← h] at hs
      exact absurd hs (lt_irrefl 0)
    · push_neg at hfeas
      exact ⟨hv ▸ hfeas.1, hm ▸ hfeas.2⟩

/-- On a feasible configuration with positive requirement and positive total
cost, the two files compute their two different closed-form scores:
Streaml.py the surplus-penalised `(1/cost)/(1+surplus)`, Stream.py the
surplus-rewarded `(1/cost)·(tv/reqV)·(tm/reqM)`. -/
theorem fitness_feasible_closed_forms {sol : Config} {cat : Catalog} {reqV reqM tv tm tc : ℚ}
    (htot : GAcore.fitnessTotals cat sol (0, 0, 0) = .ok (tv, tm, tc))
    (hfv : reqV ≤ tv) (hfm : reqM ≤ tm)
    (hrv : 0 < reqV) (hrm : 0 < reqM) (htc : 0 < tc) :
    StreamlPy.fitness sol cat reqV reqM =
      .ok ((1 / tc) / (1 + ((tv - reqV) / reqV + (tm - reqM) / reqM)))
    ∧ StreamPy.fitness sol cat reqV reqM =
      .ok ((1 / tc) * (tv / reqV) * (tm / reqM)) := by
  have hnfeas : ¬(tv < reqV ∨ tm < reqM) := by
    push_neg
    exact ⟨hfv, hfm⟩
  constructor
  · rw [StreamlPy.fitness, htot]
    have hpen : (0 : ℚ) < 1 + ((tv - reqV) / reqV + (tm - reqM) / reqM) := by
      have h1 : (0 : ℚ) ≤ (tv - reqV) / reqV := div_nonneg (sub_nonneg.mpr hfv) hrv.le
      have h2 : (0 : ℚ) ≤ (tm - reqM) / reqM := div_nonneg (sub_nonneg.mpr hfm) hrm.le
      exact add_pos_of_pos_of_nonneg one_pos (add_nonneg h1 h2)
    simp only [if_neg hnfeas, pyDiv, if_neg (ne_of_gt hrv), if_neg (ne_of_gt hrm),
      if_neg (ne_of_gt htc), if_neg (ne_of_gt hpen)]
  · rw [StreamPy.fitness, htot]
    simp only [if_neg hnfeas, pyDiv, if_neg (ne_of_gt htc), if_neg (ne_of_gt hrv),
      if_neg (ne_of_gt hrm)]

/-- The surplus-penalised score never exceeds the plain `1/cost` score. -/
theorem penalised_le_plain {reqV reqM tv tm tc : ℚ}
    (hfv : reqV ≤ tv) (hfm : reqM ≤ tm)
    (hrv : 0 < reqV) (hrm : 0 < reqM) (htc : 0 < tc) :
    (1 / tc) / (1 + ((tv - reqV) / reqV + (tm - reqM) / reqM)) ≤ 1 / tc := by
  have h1 : (0 : ℚ) ≤ (tv - reqV) / reqV := div_nonneg (sub_nonneg.mpr hfv) hrv.le
  have h2 : (0 : ℚ) ≤ (tm - reqM) / reqM := div_nonneg (sub_nonneg.mpr hfm) hrm.le
  exact div_le_self (by positivity) (le_add_of_nonneg_right (add_nonneg h1 h2))

/-- The Stream.py surplus-rewarded score is at least the plain `1/cost`
score. -/
theorem plain_le_rewarded {reqV reqM tv tm tc : ℚ}
    (hfv : reqV ≤ tv) (hfm : reqM ≤ tm)
    (hrv : 0 < reqV) (hrm : 0 < reqM) (htc : 0 < tc) :
    1 / tc ≤ (1 / tc) * (tv / reqV) * (tm / reqM) := by
  have hb : (1 : ℚ) ≤ tv / reqV := (one_le_div hrv).mpr hfv
  have hc : (1 : ℚ) ≤ tm / reqM := (one_le_div hrm).mpr hfm
  have ha : (0 : ℚ) ≤ 1 / tc := by positivity
  calc 1 / tc ≤ (1 / tc) * (tv / reqV) := le_mul_of_one_le_right ha hb
    _ ≤ (1 / tc) * (tv / reqV) * (tm / reqM) :=
        le_mul_of_one_le_right (mul_nonneg ha (le_trans zero_le_one hb)) hc

/-- Stream.py's fitness is total and non-negative for resolvable ids,
positive catalog figures and a positive requirement. -/
theorem streamPy_fitness_total {sol : Config} {cat : Catalog} {reqV reqM : ℚ}
    (hids : ∀ k ∈ keysOf sol, (findInstance cat k).isSome)
    (hcat : ∀ d ∈ cat, 0 < d.on_demand_hourly_price_usd ∧ 0 ≤ d.vCPUs)
    (hrv : 0 < reqV) (hrm : 0 < reqM) :
    ∃ s, StreamPy.fitness sol cat reqV reqM = .ok s ∧ 0 ≤ s := by
  have htot := fitnessTotals_eq_agg hids 0 0 0
  simp only [zero_add] at htot
  by_cases hfeas : aggVCPUs sol cat < reqV ∨ aggMemory sol cat < reqM
  · exact ⟨0, by rw [StreamPy.fitness, htot]; simp only [if_pos hfeas], le_refl 0⟩
  · push_neg at hfeas
    have htc : 0 < aggCost sol cat :=
      (aggCost_pos hids hcat).2 (lt_of_lt_of_le hrv hfeas.1)
    obtain ⟨-, hfit⟩ := fitness_feasible_closed_forms htot hfeas.1 hfeas.2 hrv hrm htc
    refine ⟨_, hfit, ?_⟩
    have hv : (0 : ℚ) ≤ aggVCPUs sol cat / reqV :=
      div_nonneg (le_trans hrv.le hfeas.1) hrv.le
    have hm : (0 : ℚ) ≤ aggMemory sol cat / reqM :=
      div_nonneg (le_trans hrm.le hfeas.2) hrm.le
    have h1 : (0 : ℚ) ≤ 1 / aggCost sol cat := by positivity
    exact mul_nonneg (mul_nonneg h1 hv) hm

/-- Streaml.py's fitness is total and non-negative for resolvable ids,
positive catalog figures and a positive requirement. -/
theorem streamlPy_fitness_total {sol : Config} {cat : Catalog} {reqV reqM : ℚ}
    (hids : ∀ k ∈ keysOf sol, (findInstance cat k).isSome)
    (hcat : ∀ d ∈ cat, 0 < d.on_demand_hourly_price_usd ∧ 0 ≤ d.vCPUs)
    (hrv : 0 < reqV) (hrm : 0 < reqM) :
    ∃ s, StreamlPy.fitness sol cat reqV reqM = .ok s ∧ 0 ≤ s := by
  have htot := fitnessTotals_eq_agg hids 0 0 0
  simp only [zero_add] at htot
  by_cases hfeas : aggVCPUs sol cat < reqV ∨ aggMemory sol cat < reqM
  · exact ⟨0, by rw [StreamlPy.fitness, htot]; simp only [if_pos hfeas], le_refl 0⟩
  · push_neg at hfeas
    have htc : 0 < aggCost sol cat :=
      (aggCost_pos hids hcat).2 (lt_of_lt_of_le hrv hfeas.1)
    obtain ⟨hfit, -⟩ := fitness_feasible_closed_forms htot hfeas.1 hfeas.2 hrv hrm htc
    refine ⟨_, hfit, ?_⟩
    have h1 : (0 : ℚ) ≤ (aggVCPUs sol cat - reqV) / reqV :=
      div_nonneg (sub_nonneg.mpr hfeas.1) hrv.le
    have h2 : (0 : ℚ) ≤ (aggMemory sol cat - reqM) / reqM :=
      div_nonneg (sub_nonneg.mpr hfeas.2) hrm.le
    have hden : (0 : ℚ) ≤ 1 + ((aggVCPUs sol cat - reqV) / reqV +
        (aggMemory sol cat - reqM) / reqM) :=
      add_nonneg zero_le_one (add_nonneg h1 h2)
    have hnum : (0 : ℚ) ≤ 1 / aggCost sol cat := by positivity
    exact div_nonneg hnum hden

end FitnessLemmas

section ListLemmas

/-- A key occurring in an association list's key list has a lookup value. -/
theorem lookup_eq_some_of_mem_keys {l : Config} {k : String} (h : k ∈ keysOf l) :
    ∃ v, List.lookup k l = some v := by
  induction l with
  | nil => simp [keysOf] at h
  | cons kv rest ih =>
    obtain ⟨k', v'⟩ := kv
    by_cases hk : k = k'
    · exact ⟨v', by simp [List.lookup, hk]⟩
    · have : k ∈ keysOf rest := by
        simp [keysOf] at h ⊢
        rcases h with h | h
        · exact absurd h hk
        · exact h
      obtain ⟨v, hv⟩ := ih this
      exact ⟨v, by simp [List.lookup, beq_false_of_ne hk, hv]⟩

/-- `setKey` does not touch the key list. -/
theorem keysOf_setKey (sol : Config) (key : String) (v : ℕ) :
    keysOf (GAcore.setKey sol key v) = keysOf sol := by
  induction sol with
  | nil => rfl
  | cons kv rest ih =>
    obtain ⟨k', v'⟩ := kv
    by_cases hk : k' = key <;> simp [GAcore.setKey, hk, keysOf] <;>
      simpa [keysOf] using ih

/-- Looking up the written key after `setKey` yields the written value. -/
theorem lookup_setKey_self {sol : Config} {key : String} (h : key ∈ keysOf sol) (v : ℕ) :
    List.lookup key (GAcore.setKey sol key v) = some v := by
  induction sol with
  | nil => simp [keysOf] at h
  | cons kv rest ih =>
    obtain ⟨k', v'⟩ := kv
    by_cases hk : k' = key
    · simp [GAcore.setKey, hk, List.lookup]
    · have hmem : key ∈ keysOf rest := by
        simp [keysOf] at h ⊢
        rcases h with h | h
        · exact absurd h.symm hk
        · exact h
      simp [GAcore.setKey, hk, List.lookup, beq_false_of_ne (fun he => hk he.symm)]
      exact ih hmem

/-- Looking up any other key after `setKey` is unchanged. -/
theorem lookup_setKey_ne {sol : Config} {key k : String} (hne : k ≠ key) (v : ℕ) :
    List.lookup k (GAcore.setKey sol key v) = List.lookup k sol := by
  induction sol with
  | nil => rfl
  | cons kv rest ih =>
    obtain ⟨k', v'⟩ := kv
    by_cases hk : k' = key
    · subst hk
      simp [GAcore.setKey, List.lookup, beq_false_of_ne hne]
    · by_cases hkk : k = k'
      · subst hkk
        simp [GAcore.setKey, hk, List.lookup]
      · simp [GAcore.setKey, hk, List.lookup, beq_false_of_ne hkk, ih]

/-- An in-range `getD` element is a member of the list. -/
theorem getD_mem {α : Type} {l : List α} {i : ℕ} (d : α) (h : i < l.length) :
    l.getD i d ∈ l := by
  induction l generalizing i with
  | nil => simp at h
  | cons a rest ih =>
    cases i with
    | zero => simp
    | succ j =>
      have : j < rest.length := by simpa using h
      simp only [List.getD_cons_succ]
      exact List.mem_cons_of_mem a (ih this)

/-- Members of an `insertDesc` result come from the inserted element or the
original list. -/
theorem mem_insertDesc {x y : Config × ℚ} {l : List (Config × ℚ)}
    (h : y ∈ GAcore.insertDesc x l) : y = x ∨ y ∈ l := by
  induction l with
  | nil => simpa [GAcore.insertDesc] using h
  | cons z zs ih =>
    rw [GAcore.insertDesc] at h
    by_cases hc : x.2 < z.2
    · rw [if_pos hc] at h
      rcases List.mem_cons.mp h with h | h
      · exact Or.inr (by rw [h]; exact List.mem_cons_self z zs)
      · rcases ih h with h | h
        · exact Or.inl h
        · exact Or.inr (List.mem_cons_of_mem z h)
    · rw [if_neg hc] at h
      rcases List.mem_cons.mp h with h | h
      · exact Or.inl h
      · exact Or.inr h

/-- `insertDesc` adds exactly one element. -/
theorem length_insertDesc (x : Config × ℚ) (l : List (Config × ℚ)) :
    (GAcore.insertDesc x l).length = l.length + 1 := by
  induction l with
  | nil => rfl
  | cons z zs ih =>
    rw [GAcore.insertDesc]
    by_cases hc : x.2 < z.2 <;> simp [hc, ih]

/-- Members of the sorted list are members of the input. -/
theorem mem_sortDesc {l : List (Config × ℚ)} {y : Config × ℚ}
    (h : y ∈ GAcore.sortDesc l) : y ∈ l := by
  induction l with
  | nil => simpa [GAcore.sortDesc] using h
  | cons x xs ih =>
    rw [GAcore.sortDesc] at h
    rcases mem_insertDesc h with h | h
    · simp [h]
    · exact List.mem_cons_of_mem x (ih h)

/-- Sorting preserves length. -/
theorem length_sortDesc (l : List (Config × ℚ)) :
    (GAcore.sortDesc l).length = l.length := by
  induction l with
  | nil => rfl
  | cons x xs ih => rw [GAcore.sortDesc, length_insertDesc, ih, List.length_cons]

/-- A successful `scorePop` pairs up exactly the input population, in
order. -/
theorem scorePop_map_fst {fitF : Config → Except PyError ℚ} {pop : List Config}
    {scored : List (Config × ℚ)} (h : GAcore.scorePop fitF pop = .ok scored) :
    scored.map Prod.fst = pop := by
  induction pop generalizing scored with
  | nil =>
    rw [GAcore.scorePop] at h
    injection h with h
    simp [← h]
  | cons c rest ih =>
    rw [GAcore.scorePop] at h
    split at h
    · exact absurd h (by simp)
    · split at h
      · exact absurd h (by simp)
      · rename_i s hs others hothers
        injection h with h
        simp [← h, ih hothers]

/-- `scorePop` succeeds when every member's fitness does. -/
theorem scorePop_total {fitF : Config → Except PyError ℚ} {pop : List Config}
    (h : ∀ c ∈ pop, ∃ s, fitF c = .ok s) :
    ∃ scored, GAcore.scorePop fitF pop = .ok scored := by
  induction pop with
  | nil => exact ⟨[], rfl⟩
  | cons c rest ih =>
    obtain ⟨s, hs⟩ := h c (List.mem_cons_self c rest)
    obtain ⟨others, hothers⟩ := ih (fun x hx => h x (List.mem_cons_of_mem c hx))
    exact ⟨(c, s) :: others, by rw [GAcore.scorePop, hs, hothers]⟩

/-- The `max` fold returns its running best or a member of the remaining
list. -/
theorem maxByAux_ok_mem {fitF : Config → Except PyError ℚ} {best : Config} {bs : ℚ}
    {rest : List Config} {c : Config}
    (h : GAcore.maxByAux fitF best bs rest = .ok c) : c = best ∨ c ∈ rest := by
  induction rest generalizing best bs with
  | nil =>
    rw [GAcore.maxByAux] at h
    injection h with h
    exact Or.inl h.symm
  | cons x xs ih =>
    rw [GAcore.maxByAux] at h
    split at h
    · exact absurd h (by simp)
    · rename_i s hs
      by_cases hlt : bs < s
      · rw [if_pos hlt] at h
        rcases ih h with h | h
        · exact Or.inr (by simp [h])
        · exact Or.inr (List.mem_cons_of_mem x h)
      · rw [if_neg hlt] at h
        rcases ih h with h | h
        · exact Or.inl h
        · exact Or.inr (List.mem_cons_of_mem x h)

/-- The `max` fold succeeds when every remaining member's fitness does. -/
theorem maxByAux_total {fitF : Config → Except PyError ℚ} {rest : List Config}
    (h : ∀ c ∈ rest, ∃ s, fitF c = .ok s) (best : Config) (bs : ℚ) :
    ∃ c, GAcore.maxByAux fitF best bs rest = .ok c := by
  induction rest generalizing best bs with
  | nil => exact ⟨best, rfl⟩
  | cons x xs ih =>
    obtain ⟨s, hs⟩ := h x (List.mem_cons_self x xs)
    have hxs := fun c hc => h c (List.mem_cons_of_mem x hc)
    by_cases hlt : bs < s
    · obtain ⟨c, hc⟩ := ih hxs x s
      refine ⟨c, ?_⟩
      rw [GAcore.maxByAux]
      simp only [hs, if_pos hlt]
      exact hc
    · obtain ⟨c, hc⟩ := ih hxs best bs
      refine ⟨c, ?_⟩
      rw [GAcore.maxByAux]
      simp only [hs, if_neg hlt]
      exact hc

/-- A successful `max` returns a member of the population. -/
theorem maxByFitness_ok_mem {fitF : Config → Except PyError ℚ} {pop : List Config}
    {c : Config} (h : GAcore.maxByFitness fitF pop = .ok c) : c ∈ pop := by
  cases pop with
  | nil => exact absurd h (by rw [GAcore.maxByFitness]; simp)
  | cons x xs =>
    rw [GAcore.maxByFitness] at h
    split at h
    · exact absurd h (by simp)
    · rcases maxByAux_ok_mem h with h | h
      · simp [h]
      · exact List.mem_cons_of_mem x h

/-- `max` succeeds on a non-empty population whose members' fitness all
succeed. -/
theorem maxByFitness_total {fitF : Config → Except PyError ℚ} {pop : List Config}
    (hne : pop ≠ []) (h : ∀ c ∈ pop, ∃ s, fitF c = .ok s) :
    ∃ c, GAcore.maxByFitness fitF pop = .ok c ∧ c ∈ pop := by
  cases pop with
  | nil => exact absurd rfl hne
  | cons x xs =>
    obtain ⟨s, hs⟩ := h x (List.mem_cons_self x xs)
    obtain ⟨c, hc⟩ := maxByAux_total (fun c hc => h c (List.mem_cons_of_mem x hc)) x s
    refine ⟨c, by rw [GAcore.maxByFitness]; simp only [hs]; exact hc, ?_⟩
    rcases maxByAux_ok_mem hc with h' | h'
    · simp [h']
    · exact List.mem_cons_of_mem x h'

/-- A successful two-draw choice returns members of the pool. -/
theorem choices2_ok_mem {pool : List Config} {rs : RandomState} {p1 p2 : Config}
    {rs' : RandomState} (h : GAcore.choices2 pool rs = .ok (p1, p2, rs')) :
    p1 ∈ pool ∧ p2 ∈ pool := by
  rw [GAcore.choices2] at h
  split at h
  · exact absurd h (by simp)
  · rename_i hlen
    have hpos : 0 < pool.length := Nat.pos_of_ne_zero hlen
    injection h with h
    simp only [Prod.mk.injEq] at h
    obtain ⟨h1, h2, -⟩ := h
    subst h1
    subst h2
    exact ⟨getD_mem [] (Nat.mod_lt _ hpos), getD_mem [] (Nat.mod_lt _ hpos)⟩

/-- The two-draw choice succeeds on a non-empty pool. -/
theorem choices2_total {pool : List Config} (hne : pool ≠ []) (rs : RandomState) :
    ∃ p1 p2 rs', GAcore.choices2 pool rs = .ok (p1, p2, rs') ∧ p1 ∈ pool ∧ p2 ∈ pool := by
  have hlen : pool.length ≠ 0 := by simpa using hne
  rcases hch : GAcore.choices2 pool rs with e | ⟨p1, p2, rs'⟩
  · rw [GAcore.choices2, if_neg hlen] at hch
    exact absurd hch (by simp)
  · exact ⟨p1, p2, rs', rfl, choices2_ok_mem hch⟩

end ListLemmas

section OperatorLemmas

/-- A successful mutation never changes the key list. -/
theorem mutate_ok_keys {sol : Config} {rate : ℚ} {rs : RandomState}
    {sol' : Config} {rs' : RandomState}
    (h : GAcore.mutate sol rate rs = .ok (sol', rs')) : keysOf sol' = keysOf sol := by
  simp only [GAcore.mutate, randFloat, randIntMod] at h
  split at h
  · split at h
    · exact absurd h (by simp)
    · injection h with h
      simp only [Prod.mk.injEq] at h
      rw [← h.1, keysOf_setKey]
  · injection h with h
    simp only [Prod.mk.injEq] at h
    rw [← h.1]

/-- Mutation succeeds on every non-empty configuration. -/
theorem mutate_total {sol : Config} (hne : sol ≠ []) (rate : ℚ) (rs : RandomState) :
    ∃ sol' rs', GAcore.mutate sol rate rs = .ok (sol', rs') ∧ keysOf sol' = keysOf sol := by
  rcases hmu : GAcore.mutate sol rate rs with e | ⟨sol', rs'⟩
  · simp only [GAcore.mutate, randFloat, randIntMod] at hmu
    split at hmu
    · split at hmu
      · rename_i hzero
        exact absurd (List.length_eq_zero.mp hzero) hne
      · exact absurd hmu (by simp)
    · exact absurd hmu (by simp)
  · exact ⟨sol', rs', rfl, mutate_ok_keys hmu⟩

/-- Single-locus boundedness of a successful mutation: there is one key
outside of which every lookup is unchanged, and at that key the stored
count is unchanged, incremented by one, or decremented by one (where the
decrement is the clamped `max(0, v - 1)`, i.e. truncated subtraction). -/
theorem mutate_ok_changes {sol : Config} {rate : ℚ} {rs : RandomState}
    {sol' : Config} {rs' : RandomState}
    (h : GAcore.mutate sol rate rs = .ok (sol', rs')) :
    ∃ k0, (∀ k, k ≠ k0 → List.lookup k sol' = List.lookup k sol) ∧
      (∀ v v', List.lookup k0 sol = some v → List.lookup k0 sol' = some v' →
        v' = v ∨ v' = v + 1 ∨ v' = v - 1) := by
  simp only [GAcore.mutate, randFloat, randIntMod] at h
  split at h
  · split at h
    · exact absurd h (by simp)
    · rename_i hlen
      injection h with h
      simp only [Prod.mk.injEq] at h
      obtain ⟨hsol, -⟩ := h
      have hmem : (keysOf sol).getD (rs.ints rs.ipos % sol.length) GAcore.noKey ∈
          keysOf sol := by
        refine getD_mem _ ?_
        have hl : (keysOf sol).length = sol.length := by simp [keysOf]
        rw [hl]
        exact Nat.mod_lt _ (Nat.pos_of_ne_zero hlen)
      refine ⟨(keysOf sol).getD (rs.ints rs.ipos % sol.length) GAcore.noKey, ?_, ?_⟩
      · intro k hk
        rw [← hsol, lookup_setKey_ne hk]
      · intro v v' hv hv'
        rw [← hsol, lookup_setKey_self hmem] at hv'
        injection hv' with hv'
        rw [← hv', hv]
        simp only [Option.getD_some]
        split
        · right; right; rfl
        · right; left; rfl
  · injection h with h
    simp only [Prod.mk.injEq] at h
    obtain ⟨hsol, -⟩ := h
    refine ⟨GAcore.noKey, fun k _ => by rw [← hsol], fun v v' hv hv' => ?_⟩
    rw [← hsol, hv] at hv'
    injection hv' with hv'
    exact Or.inl hv'.symm

/-- A successful crossover child has exactly the first parent's key list. -/
theorem crossover_ok_keys {p1 p2 : Config} {rs : RandomState}
    {child : Config} {rs' : RandomState}
    (h : GAcore.crossover p1 p2 rs = .ok (child, rs')) : keysOf child = keysOf p1 := by
  induction p1 generalizing rs child rs' with
  | nil =>
    rw [GAcore.crossover] at h
    injection h with h
    simp only [Prod.mk.injEq] at h
    rw [← h.1]
  | cons kv rest ih =>
    obtain ⟨key, v1⟩ := kv
    simp only [GAcore.crossover, randFloat] at h
    split at h
    · split at h
      · exact absurd h (by simp)
      · rename_i others rs2 hrec
        injection h with h
        simp only [Prod.mk.injEq] at h
        rw [← h.1]
        simpa [keysOf] using ih hrec
    · split at h
      · exact absurd h (by simp)
      · rename_i v2 hlook
        split at h
        · exact absurd h (by simp)
        · rename_i others rs2 hrec
          injection h with h
          simp only [Prod.mk.injEq] at h
          rw [← h.1]
          simpa [keysOf] using ih hrec

/-- Crossover succeeds whenever the second parent covers the first parent's
keys. -/
theorem crossover_total {p1 p2 : Config}
    (hcov : ∀ k ∈ keysOf p1, ∃ v, List.lookup k p2 = some v) (rs : RandomState) :
    ∃ child rs', GAcore.crossover p1 p2 rs = .ok (child, rs') ∧
      keysOf child = keysOf p1 := by
  induction p1 generalizing rs with
  | nil => exact ⟨[], rs, rfl, rfl⟩
  | cons kv rest ih =>
    obtain ⟨key, v1⟩ := kv
    have hrest : ∀ k ∈ keysOf rest, ∃ v, List.lookup k p2 = some v := by
      intro k hk
      exact hcov k (by simp [keysOf] at hk ⊢; exact Or.inr hk)
    obtain ⟨others, rs2, hrec, hkeys⟩ :=
      ih hrest ⟨rs.floats, rs.ints, rs.fpos + 1, rs.ipos⟩
    by_cases hcoin : rs.floats rs.fpos < 1/2
    · refine ⟨(key, v1) :: others, rs2, ?_, by simpa [keysOf] using hkeys⟩
      rw [GAcore.crossover]
      simp only [randFloat, if_pos hcoin, hrec]
    · obtain ⟨v2, hv2⟩ := hcov key (by simp [keysOf])
      refine ⟨(key, v2) :: others, rs2, ?_, by simpa [keysOf] using hkeys⟩
      rw [GAcore.crossover]
      simp only [randFloat, if_neg hcoin, hv2, hrec]

end OperatorLemmas

section GenerationLemmas

/-- Children built from a pool of configurations keyed by `ids` are keyed by
`ids`. -/
theorem buildChildren_ok_keys {ids : List String} {topTen : List Config} {rate : ℚ}
    {n : ℕ} {rs : RandomState} {children : List Config} {rs' : RandomState}
    (htop : ∀ c ∈ topTen, keysOf c = ids)
    (h : GAcore.buildChildren topTen rate n rs = .ok (children, rs')) :
    ∀ c ∈ children, keysOf c = ids := by
  induction n generalizing rs children rs' with
  | zero =>
    rw [GAcore.buildChildren] at h
    injection h with h
    simp only [Prod.mk.injEq] at h
    intro c hc
    rw [← h.1] at hc
    simp at hc
  | succ m ih =>
    rw [GAcore.buildChildren] at h
    split at h
    · exact absurd h (by simp)
    · rename_i p1 p2 rs1 hch
      split at h
      · exact absurd h (by simp)
      · rename_i child0 rs2 hcr
        split at h
        · exact absurd h (by simp)
        · rename_i child rs3 hmu
          split at h
          · exact absurd h (by simp)
          · rename_i others rs4 hrec
            injection h with h
            simp only [Prod.mk.injEq] at h
            intro c hc
            rw [← h.1] at hc
            rcases List.mem_cons.mp hc with hc | hc
            · subst hc
              rw [mutate_ok_keys hmu, crossover_ok_keys hcr]
              exact htop p1 (choices2_ok_mem hch).1
            · exact ih hrec c hc

/-- Child construction succeeds on a non-empty pool of configurations keyed
by a non-empty `ids`. -/
theorem buildChildren_total {ids : List String} (hids : ids ≠ []) {topTen : List Config}
    (hne : topTen ≠ []) (htop : ∀ c ∈ topTen, keysOf c = ids) (rate : ℚ) (n : ℕ)
    (rs : RandomState) :
    ∃ children rs', GAcore.buildChildren topTen rate n rs = .ok (children, rs') ∧
      ∀ c ∈ children, keysOf c = ids := by
  induction n generalizing rs with
  | zero => exact ⟨[], rs, rfl, by simp⟩
  | succ m ih =>
    obtain ⟨p1, p2, rs1, hch, hp1, hp2⟩ := choices2_total hne rs
    have hcov : ∀ k ∈ keysOf p1, ∃ v, List.lookup k p2 = some v := by
      intro k hk
      rw [htop p1 hp1] at hk
      exact lookup_eq_some_of_mem_keys (by rw [htop p2 hp2]; exact hk)
    obtain ⟨child0, rs2, hcr, hk0⟩ := crossover_total hcov rs1
    have hchild0 : child0 ≠ [] := by
      intro hc
      rw [hc] at hk0
      rw [htop p1 hp1] at hk0
      exact hids (by simpa [keysOf] using hk0.symm)
    obtain ⟨child, rs3, hmu, hk1⟩ := mutate_total hchild0 rate rs2
    obtain ⟨others, rs4, hrec, hko⟩ := ih rs3
    refine ⟨child :: others, rs4, ?_, ?_⟩
    · rw [GAcore.buildChildren, hch]
      simp only [hcr, hmu, hrec]
    · intro c hc
      rcases List.mem_cons.mp hc with hc | hc
      · subst hc
        rw [hk1, hk0, htop p1 hp1]
      · exact hko c hc

/-- Members of a successful next generation stay keyed by `ids`. -/
theorem nextGeneration_ok_keys {ids : List String} {fitF : Config → Except PyError ℚ}
    {ps : ℕ} {rate : ℚ} {pop : List Config} {rs : RandomState}
    {pop' : List Config} {rs' : RandomState}
    (hpop : ∀ c ∈ pop, keysOf c = ids)
    (h : GAcore.nextGeneration fitF ps rate pop rs = .ok (pop', rs')) :
    ∀ c ∈ pop', keysOf c = ids := by
  rw [GAcore.nextGeneration] at h
  split at h
  · exact absurd h (by simp)
  · rename_i scored hsc
    have hsorted : ∀ c ∈ (GAcore.sortDesc scored).map Prod.fst, keysOf c = ids := by
      intro c hc
      obtain ⟨p, hp, hpc⟩ := List.mem_map.mp hc
      have : p.1 ∈ scored.map Prod.fst := List.mem_map_of_mem Prod.fst (mem_sortDesc hp)
      rw [scorePop_map_fst hsc] at this
      rw [← hpc]
      exact hpop p.1 this
    split at h
    · exact absurd h (by simp)
    · rename_i children rs1 hbc
      injection h with h
      simp only [Prod.mk.injEq] at h
      intro c hc
      rw [← h.1] at hc
      rcases List.mem_append.mp hc with hc | hc
      · exact hsorted c (List.mem_of_mem_take hc)
      · exact buildChildren_ok_keys
          (fun x hx => hsorted x (List.mem_of_mem_take hx)) hbc c hc

/-- One generation step succeeds and keeps a non-empty population keyed by
`ids`, given total fitness on such configurations. -/
theorem nextGeneration_total {ids : List String} (hids : ids ≠ [])
    {fitF : Config → Except PyError ℚ}
    (hfit : ∀ c, keysOf c = ids → ∃ s, fitF c = .ok s)
    {pop : List Config} (hpop : ∀ c ∈ pop, keysOf c = ids) (hne : pop ≠ [])
    (ps : ℕ) (rate : ℚ) (rs : RandomState) :
    ∃ pop' rs', GAcore.nextGeneration fitF ps rate pop rs = .ok (pop', rs') ∧
      (∀ c ∈ pop', keysOf c = ids) ∧ pop' ≠ [] := by
  obtain ⟨scored, hsc⟩ := scorePop_total (fun c hc => hfit c (hpop c hc))
  have hsorted : ∀ c ∈ (GAcore.sortDesc scored).map Prod.fst, keysOf c = ids := by
    intro c hc
    obtain ⟨p, hp, hpc⟩ := List.mem_map.mp hc
    have : p.1 ∈ scored.map Prod.fst := List.mem_map_of_mem Prod.fst (mem_sortDesc hp)
    rw [scorePop_map_fst hsc] at this
    rw [← hpc]
    exact hpop p.1 this
  have hslen : ((GAcore.sortDesc scored).map Prod.fst).length = pop.length := by
    rw [List.length_map, length_sortDesc, ← scorePop_map_fst hsc, List.length_map]
  have hpoplen : 0 < pop.length := List.length_pos.mpr hne
  have htenne : ((GAcore.sortDesc scored).map Prod.fst).take 10 ≠ [] := by
    rw [← List.length_pos, List.length_take, hslen]
    omega
  obtain ⟨children, rs1, hbc, hck⟩ :=
    buildChildren_total hids htenne
      (fun c hc => hsorted c (List.mem_of_mem_take hc)) rate
      (ps - (((GAcore.sortDesc scored).map Prod.fst).take 2).length) rs
  have heltne : ((GAcore.sortDesc scored).map Prod.fst).take 2 ≠ [] := by
    rw [← List.length_pos, List.length_take, hslen]
    omega
  refine ⟨((GAcore.sortDesc scored).map Prod.fst).take 2 ++ children, rs1, ?_, ?_, ?_⟩
  · rw [GAcore.nextGeneration, hsc]
    simp only [hbc]
  · intro c hc
    rcases List.mem_append.mp hc with hc | hc
    · exact hsorted c (List.mem_of_mem_take hc)
    · exact hck c hc
  · intro hcon
    rw [List.append_eq_nil] at hcon
    exact heltne hcon.1

/-- Members of the population after any number of successful generations
stay keyed by `ids`. -/
theorem gaLoop_ok_keys {ids : List String} {fitF : Config → Except PyError ℚ}
    {ps : ℕ} {rate : ℚ} {gens : ℕ} {pop : List Config} {rs : RandomState}
    {pop' : List Config} {rs' : RandomState}
    (hpop : ∀ c ∈ pop, keysOf c = ids)
    (h : GAcore.gaLoop fitF ps rate gens pop rs = .ok (pop', rs')) :
    ∀ c ∈ pop', keysOf c = ids := by
  induction gens generalizing pop rs with
  | zero =>
    rw [GAcore.gaLoop] at h
    injection h with h
    simp only [Prod.mk.injEq] at h
    intro c hc
    rw [← h.1] at hc
    exact hpop c hc
  | succ g ih =>
    rw [GAcore.gaLoop] at h
    split at h
    · exact absurd h (by simp)
    · rename_i pop1 rs1 hng
      exact ih (nextGeneration_ok_keys hpop hng) h

/-- The generation loop succeeds from a non-empty population keyed by `ids`,
given total fitness on such configurations, and its result is again such a
population. -/
theorem gaLoop_total {ids : List String} (hids : ids ≠ [])
    {fitF : Config → Except PyError ℚ}
    (hfit : ∀ c, keysOf c = ids → ∃ s, fitF c = .ok s)
    {pop : List Config} (hpop : ∀ c ∈ pop, keysOf c = ids) (hne : pop ≠ [])
    (ps : ℕ) (rate : ℚ) (gens : ℕ) (rs : RandomState) :
    ∃ pop' rs', GAcore.gaLoop fitF ps rate gens pop rs = .ok (pop', rs') ∧
      (∀ c ∈ pop', keysOf c = ids) ∧ pop' ≠ [] := by
  induction gens generalizing pop rs with
  | zero => exact ⟨pop, rs, rfl, hpop, hne⟩
  | succ g ih =>
    obtain ⟨pop1, rs1, hng, hk1, hne1⟩ := nextGeneration_total hids hfit hpop hne ps rate rs
    obtain ⟨pop', rs', hloop, hk', hne'⟩ := ih hk1 hne1 rs1
    exact ⟨pop', rs', by rw [GAcore.gaLoop, hng]; exact hloop, hk', hne'⟩

/-- Every member of the initial population is one generated solution. -/
theorem initPopulation_mem {genF : RandomState → Config × RandomState} {ids : List String}
    (hgen : ∀ rs, keysOf (genF rs).1 = ids) (n : ℕ) (rs : RandomState) :
    ∀ c ∈ (GAcore.initPopulation genF n rs).1, keysOf c = ids := by
  induction n generalizing rs with
  | zero => intro c hc; simp [GAcore.initPopulation] at hc
  | succ m ih =>
    intro c hc
    rw [GAcore.initPopulation] at hc
    simp only at hc
    rcases List.mem_cons.mp hc with hc | hc
    · rw [hc]
      exact hgen rs
    · exact ih (genF rs).2 c hc

/-- The initial population has exactly `pop_size` members. -/
theorem initPopulation_length (genF : RandomState → Config × RandomState)
    (n : ℕ) (rs : RandomState) : (GAcore.initPopulation genF n rs).1.length = n := by
  induction n generalizing rs with
  | zero => rfl
  | succ m ih => simp [GAcore.initPopulation, ih]

/-- Stream.py's `generate_solution` is keyed by exactly the catalog's id
list, in catalog order. -/
theorem streamPy_generate_keys (cat : Catalog) (rs : RandomState) :
    keysOf (StreamPy.generate_solution cat rs).1 = catIds cat := by
  induction cat generalizing rs with
  | nil => rfl
  | cons spec rest ih =>
    rw [StreamPy.generate_solution]
    simp only [randIntMod]
    rcases hrec : StreamPy.generate_solution rest
      ⟨rs.floats, rs.ints, rs.fpos, rs.ipos + 1⟩ with ⟨others, rs2⟩
    have := ih ⟨rs.floats, rs.ints, rs.fpos, rs.ipos + 1⟩
    rw [hrec] at this
    simp [keysOf, catIds] at this ⊢
    exact this

/-- Streaml.py's `generate_solution` is keyed by exactly the catalog's id
list, in catalog order. -/
theorem streamlPy_generate_keys (cat : Catalog) (rs : RandomState) :
    keysOf (StreamlPy.generate_solution cat rs).1 = catIds cat := by
  induction cat generalizing rs with
  | nil => rfl
  | cons spec rest ih =>
    rw [StreamlPy.generate_solution]
    simp only [randIntMod]
    rcases hrec : StreamlPy.generate_solution rest
      ⟨rs.floats, rs.ints, rs.fpos, rs.ipos + 1⟩ with ⟨others, rs2⟩
    have := ih ⟨rs.floats, rs.ints, rs.fpos, rs.ipos + 1⟩
    rw [hrec] at this
    simp [keysOf, catIds] at this ⊢
    exact this

end GenerationLemmas

section GALemmas

/-- A successful Streaml.py optimiser run returns a configuration keyed by
exactly the catalog's id list. -/
theorem streamlPy_ga_ok_keys {cat : Catalog} {reqV reqM : ℚ} {ps gens : ℕ} {rate : ℚ}
    {rs : RandomState} {cfg : Config}
    (h : StreamlPy.genetic_algorithm cat reqV reqM ps gens rate rs = .ok cfg) :
    keysOf cfg = catIds cat := by
  rcases hinit : GAcore.initPopulation (StreamlPy.generate_solution cat) ps rs
    with ⟨pop0, rs0⟩
  simp only [StreamlPy.genetic_algorithm, hinit] at h
  split at h
  · exact absurd h (by simp)
  · rename_i popF rs1 hloop
    have hpop0 : ∀ c ∈ pop0, keysOf c = catIds cat := by
      have := initPopulation_mem (fun rs => streamlPy_generate_keys cat rs) ps rs
      rw [hinit] at this
      exact this
    exact gaLoop_ok_keys hpop0 hloop cfg (maxByFitness_ok_mem h)

/-- The Streaml.py optimiser runs to completion on a non-empty catalog with
positive prices, non-negative vCPU figures and a positive requirement. -/
theorem streamlPy_ga_total {cat : Catalog} (hcatne : cat ≠ [])
    (hcat : ∀ d ∈ cat, 0 < d.on_demand_hourly_price_usd ∧ 0 ≤ d.vCPUs)
    {reqV reqM : ℚ} (hrv : 0 < reqV) (hrm : 0 < reqM)
    {ps : ℕ} (hps : 1 ≤ ps) (gens : ℕ) (rate : ℚ) (rs : RandomState) :
    ∃ cfg, StreamlPy.genetic_algorithm cat reqV reqM ps gens rate rs = .ok cfg ∧
      keysOf cfg = catIds cat := by
  have hids : catIds cat ≠ [] := by
    intro hcon
    exact hcatne (List.map_eq_nil.mp hcon)
  have hfit : ∀ c, keysOf c = catIds cat →
      ∃ s, StreamlPy.fitness c cat reqV reqM = .ok s := by
    intro c hk
    obtain ⟨s, hs, -⟩ := streamlPy_fitness_total
      (fun k hkk => findInstance_isSome_of_mem_catIds (hk ▸ hkk)) hcat hrv hrm
    exact ⟨s, hs⟩
  rcases hinit : GAcore.initPopulation (StreamlPy.generate_solution cat) ps rs
    with ⟨pop0, rs0⟩
  have hpop0 : ∀ c ∈ pop0, keysOf c = catIds cat := by
    have := initPopulation_mem (fun rs => streamlPy_generate_keys cat rs) ps rs
    rw [hinit] at this
    exact this
  have hpop0ne : pop0 ≠ [] := by
    have := initPopulation_length (StreamlPy.generate_solution cat) ps rs
    rw [hinit] at this
    rw [← List.length_pos, this]
    omega
  obtain ⟨popF, rs1, hloop, hkF, hneF⟩ :=
    gaLoop_total hids hfit hpop0 hpop0ne ps rate gens rs0
  obtain ⟨cfg, hmax, hmem⟩ := maxByFitness_total hneF (fun c hc => hfit c (hkF c hc))
  refine ⟨cfg, ?_, hkF cfg hmem⟩
  simp only [StreamlPy.genetic_algorithm, hinit, hloop]
  exact hmax

/-- The Stream.py optimiser runs to completion under the same hypotheses; it
returns either a configuration (keyed by the catalog's id list) or `none`
after its built-in feasibility re-check. -/
theorem streamPy_ga_total {cat : Catalog} (hcatne : cat ≠ [])
    (hcat : ∀ d ∈ cat, 0 < d.on_demand_hourly_price_usd ∧ 0 ≤ d.vCPUs)
    {reqV reqM : ℚ} (hrv : 0 < reqV) (hrm : 0 < reqM)
    {ps : ℕ} (hps : 1 ≤ ps) (gens : ℕ) (rate : ℚ) (rs : RandomState) :
    ∃ r, StreamPy.genetic_algorithm cat reqV reqM ps gens rate rs = .ok r ∧
      ∀ cfg, r = some cfg → keysOf cfg = catIds cat := by
  have hids : catIds cat ≠ [] := by
    intro hcon
    exact hcatne (List.map_eq_nil.mp hcon)
  have hfit : ∀ c, keysOf c = catIds cat →
      ∃ s, StreamPy.fitness c cat reqV reqM = .ok s := by
    intro c hk
    obtain ⟨s, hs, -⟩ := streamPy_fitness_total
      (fun k hkk => findInstance_isSome_of_mem_catIds (hk ▸ hkk)) hcat hrv hrm
    exact ⟨s, hs⟩
  rcases hinit : GAcore.initPopulation (StreamPy.generate_solution cat) ps rs
    with ⟨pop0, rs0⟩
  have hpop0 : ∀ c ∈ pop0, keysOf c = catIds cat := by
    have := initPopulation_mem (fun rs => streamPy_generate_keys cat rs) ps rs
    rw [hinit] at this
    exact this
  have hpop0ne : pop0 ≠ [] := by
    have := initPopulation_length (StreamPy.generate_solution cat) ps rs
    rw [hinit] at this
    rw [← List.length_pos, this]
    omega
  obtain ⟨popF, rs1, hloop, hkF, hneF⟩ :=
    gaLoop_total hids hfit hpop0 hpop0ne ps rate gens rs0
  obtain ⟨best, hmax, hmem⟩ := maxByFitness_total hneF (fun c hc => hfit c (hkF c hc))
  have hbids : ∀ k ∈ keysOf best, (findInstance cat k).isSome :=
    fun k hkk => findInstance_isSome_of_mem_catIds ((hkF best hmem) ▸ hkk)
  by_cases hfeas : aggVCPUs best cat < reqV ∨ aggMemory best cat < reqM
  · refine ⟨none, ?_, by simp⟩
    simp only [StreamPy.genetic_algorithm, hinit, hloop, hmax,
      sumVCPUs_eq_agg hbids, sumMemory_eq_agg hbids, if_pos hfeas]
  · refine ⟨some best, ?_, ?_⟩
    · simp only [StreamPy.genetic_algorithm, hinit, hloop, hmax,
        sumVCPUs_eq_agg hbids, sumMemory_eq_agg hbids, if_neg hfeas]
    · intro cfg hcfg
      injection hcfg with hcfg
      rw [← hcfg]
      exact hkF best hmem

end GALemmas

section ConstRun
/-- The demonstration id resolves to the demonstration record. -/
theorem findInstance_catA : findInstance catA idA = some specA := rfl

/-- Stream.py solution generation under the constant source. -/
theorem streamPy_generate_const (n fp ip : ℕ) :
    StreamPy.generate_solution catA (constRand n fp ip) =
      (cfgA (n % 3), constRand n fp (ip + 1)) := rfl

/-- Streaml.py solution generation under the constant source. -/
theorem streamlPy_generate_const (n fp ip : ℕ) :
    StreamlPy.generate_solution catA (constRand n fp ip) =
      (cfgA (n % 6), constRand n fp (ip + 1)) := rfl

/-- Crossover of two copies of the same demonstration configuration under the
constant source returns that configuration. -/
theorem crossover_const (k n fp ip : ℕ) :
    GAcore.crossover (cfgA k) (cfgA k) (constRand n fp ip) =
      .ok (cfgA k, constRand n (fp + 1) ip) := by
  simp only [cfgA, GAcore.crossover, randFloat, constRand]
  rw [if_neg (by norm_num : ¬((1 : ℚ)/2 < 1/2))]
  simp [List.lookup]

/-- Mutation under the constant source never fires. -/
theorem mutate_const (k n fp ip : ℕ) :
    GAcore.mutate (cfgA k) (1/10) (constRand n fp ip) =
      .ok (cfgA k, constRand n (fp + 1) ip) := by
  simp only [cfgA, GAcore.mutate, randFloat, constRand]
  rw [if_neg (by norm_num : ¬((1 : ℚ)/2 < 1/10))]

/-- Two-draw choice from a pool of copies of one configuration. -/
theorem choices2_allEq {pool : List Config} {c : Config} (hne : pool ≠ [])
    (hall : ∀ x ∈ pool, x = c) (n fp ip : ℕ) :
    GAcore.choices2 pool (constRand n fp ip) = .ok (c, c, constRand n fp (ip + 2)) := by
  have hlen : pool.length ≠ 0 := by simpa using hne
  have hpos : 0 < pool.length := Nat.pos_of_ne_zero hlen
  rw [GAcore.choices2, if_neg hlen]
  simp only [randIntMod, constRand]
  rw [hall _ (getD_mem [] (Nat.mod_lt _ hpos))]

/-- Inserting an element into a run of its copies keeps it in front. -/
theorem insertDesc_allEq {l : List (Config × ℚ)} {p : Config × ℚ}
    (hall : ∀ x ∈ l, x = p) : GAcore.insertDesc p l = p :: l := by
  cases l with
  | nil => rfl
  | cons y ys =>
    rw [GAcore.insertDesc, hall y (by simp), if_neg (lt_irrefl p.2)]

/-- Sorting a run of copies of one element is the identity. -/
theorem sortDesc_allEq {l : List (Config × ℚ)} {p : Config × ℚ}
    (hall : ∀ x ∈ l, x = p) : GAcore.sortDesc l = l := by
  induction l with
  | nil => rfl
  | cons y ys ih =>
    rw [GAcore.sortDesc, ih (fun x hx => hall x (List.mem_cons_of_mem y hx)),
      hall y (by simp), insertDesc_allEq (fun x hx => hall x (List.mem_cons_of_mem y hx))]

/-- Scoring a run of copies of one configuration. -/
theorem scorePop_allEq {fitF : Config → Except PyError ℚ} {c : Config} {s : ℚ}
    (hfit : fitF c = .ok s) {pop : List Config} (hall : ∀ x ∈ pop, x = c) :
    GAcore.scorePop fitF pop = .ok (pop.map (fun _ => (c, s))) := by
  induction pop with
  | nil => rfl
  | cons x xs ih =>
    rw [GAcore.scorePop, hall x (by simp), hfit,
      ih (fun y hy => hall y (List.mem_cons_of_mem x hy))]
    simp [hall x (by simp)]

/-- The `max` fold over copies of the running best returns it. -/
theorem maxByAux_allEq {fitF : Config → Except PyError ℚ} {c : Config} {s : ℚ}
    (hfit : fitF c = .ok s) {rest : List Config} (hall : ∀ x ∈ rest, x = c) :
    GAcore.maxByAux fitF c s rest = .ok c := by
  induction rest with
  | nil => rfl
  | cons x xs ih =>
    rw [GAcore.maxByAux, hall x (by simp)]
    simp only [hfit, if_neg (lt_irrefl s)]
    exact ih (fun y hy => hall y (List.mem_cons_of_mem x hy))

/-- `max` over a non-empty run of copies of one configuration returns it. -/
theorem maxByFitness_allEq {fitF : Config → Except PyError ℚ} {c : Config} {s : ℚ}
    (hfit : fitF c = .ok s) {pop : List Config} (hne : pop ≠ [])
    (hall : ∀ x ∈ pop, x = c) : GAcore.maxByFitness fitF pop = .ok c := by
  cases pop with
  | nil => exact absurd rfl hne
  | cons x xs =>
    rw [GAcore.maxByFitness, hall x (by simp), hfit]
    exact maxByAux_allEq hfit (fun y hy => hall y (List.mem_cons_of_mem x hy))

/-- Child construction from a pool of copies of the demonstration
configuration replicates it. -/
theorem buildChildren_const {pool : List Config} {k : ℕ} (hne : pool ≠ [])
    (hall : ∀ x ∈ pool, x = cfgA k) (n : ℕ) (m : ℕ) :
    ∀ (fp ip : ℕ), ∃ fp' ip',
      GAcore.buildChildren pool (1/10) m (constRand n fp ip) =
        .ok (List.replicate m (cfgA k), constRand n fp' ip') := by
  induction m with
  | zero => exact fun fp ip => ⟨fp, ip, rfl⟩
  | succ mm ih =>
    intro fp ip
    obtain ⟨fp', ip', hrec⟩ := ih (fp + 2) (ip + 2)
    refine ⟨fp', ip', ?_⟩
    rw [GAcore.buildChildren, choices2_allEq hne hall n fp ip]
    simp only [crossover_const, mutate_const, hrec]
    rw [List.replicate_succ]

/-- One generation over a population of copies of the demonstration
configuration reproduces the same population. -/
theorem nextGeneration_const {fitF : Config → Except PyError ℚ} {k : ℕ} {s : ℚ}
    (hfit : fitF (cfgA k) = .ok s) {ps : ℕ} (hps : 2 ≤ ps) (n fp ip : ℕ) :
    ∃ fp' ip',
      GAcore.nextGeneration fitF ps (1/10) (List.replicate ps (cfgA k)) (constRand n fp ip) =
        .ok (List.replicate ps (cfgA k), constRand n fp' ip') := by
  have hall : ∀ x ∈ List.replicate ps (cfgA k), x = cfgA k :=
    fun x hx => List.eq_of_mem_replicate hx
  have hscore := scorePop_allEq hfit hall
  rw [List.map_replicate] at hscore
  have hsort : GAcore.sortDesc (List.replicate ps (cfgA k, s)) =
      List.replicate ps (cfgA k, s) :=
    sortDesc_allEq (fun x hx => List.eq_of_mem_replicate hx)
  have h10ne : (List.replicate (min 10 ps) (cfgA k)) ≠ [] := by
    rw [← List.length_pos, List.length_replicate]
    omega
  obtain ⟨fp', ip', hbc⟩ := buildChildren_const h10ne
    (fun x hx => List.eq_of_mem_replicate hx) n (ps - 2) fp ip
  refine ⟨fp', ip', ?_⟩
  rw [GAcore.nextGeneration]
  simp only [hscore]
  rw [hsort, List.map_replicate, List.take_replicate, List.take_replicate]
  have h2 : min 2 ps = 2 := by omega
  rw [h2]
  simp only [List.length_replicate]
  simp only [hbc]
  rw [← List.replicate_add]
  have hadd : 2 + (ps - 2) = ps := by omega
  rw [hadd]

/-- The generation loop over a population of copies of the demonstration
configuration is stationary. -/
theorem gaLoop_const {fitF : Config → Except PyError ℚ} {k : ℕ} {s : ℚ}
    (hfit : fitF (cfgA k) = .ok s) {ps : ℕ} (hps : 2 ≤ ps) (n : ℕ) (gens : ℕ) :
    ∀ (fp ip : ℕ), ∃ fp' ip',
      GAcore.gaLoop fitF ps (1/10) gens (List.replicate ps (cfgA k)) (constRand n fp ip) =
        .ok (List.replicate ps (cfgA k), constRand n fp' ip') := by
  induction gens with
  | zero => exact fun fp ip => ⟨fp, ip, rfl⟩
  | succ g ih =>
    intro fp ip
    obtain ⟨fp1, ip1, hng⟩ := nextGeneration_const hfit hps n fp ip
    obtain ⟨fp', ip', hrec⟩ := ih fp1 ip1
    refine ⟨fp', ip', ?_⟩
    rw [GAcore.gaLoop, hng]
    exact hrec

/-- The initial population under the constant source replicates the one
generated solution. -/
theorem initPopulation_const {genF : RandomState → Config × RandomState} {c : Config}
    {n : ℕ} (hgen : ∀ fp ip, genF (constRand n fp ip) = (c, constRand n fp (ip + 1)))
    (ps : ℕ) : ∀ (fp ip : ℕ),
    GAcore.initPopulation genF ps (constRand n fp ip) =
      (List.replicate ps c, constRand n fp (ip + ps)) := by
  induction ps with
  | zero => exact fun fp ip => rfl
  | succ m ih =>
    intro fp ip
    rw [GAcore.initPopulation]
    simp only [hgen fp ip, ih fp (ip + 1)]
    rw [List.replicate_succ]
    have : ip + 1 + m = ip + (m + 1) := by omega
    rw [this]

end ConstRun

section ConcreteEval

/-- Totals of one demonstration unit. -/
theorem fitnessTotals_cfgA1 :
    GAcore.fitnessTotals catA (cfgA 1) (0, 0, 0) = .ok (100, 100, 1) := by
  norm_num [cfgA, GAcore.fitnessTotals, findInstance_catA, specA]

/-- Totals of the all-zero demonstration configuration. -/
theorem fitnessTotals_cfgA0 :
    GAcore.fitnessTotals catA (cfgA 0) (0, 0, 0) = .ok (0, 0, 0) := by
  norm_num [cfgA, GAcore.fitnessTotals, findInstance_catA, specA]

/-- Stream.py fitness of one demonstration unit against requirement 90/90. -/
theorem streamPy_fitness_cfgA1 :
    StreamPy.fitness (cfgA 1) catA 90 90 = .ok (100/81) := by
  rw [StreamPy.fitness]
  simp only [fitnessTotals_cfgA1]
  norm_num [pyDiv]

/-- Stream.py fitness of the all-zero configuration against requirement
90/90 is zero (infeasible). -/
theorem streamPy_fitness_cfgA0 :
    StreamPy.fitness (cfgA 0) catA 90 90 = .ok 0 := by
  rw [StreamPy.fitness]
  simp only [fitnessTotals_cfgA0]
  norm_num

/-- Streaml.py fitness of one demonstration unit against requirement
90/90. -/
theorem streamlPy_fitness_cfgA1 :
    StreamlPy.fitness (cfgA 1) catA 90 90 = .ok (9/11) := by
  rw [StreamlPy.fitness]
  simp only [fitnessTotals_cfgA1]
  norm_num [pyDiv]

/-- Streaml.py fitness of the all-zero configuration against requirement
90/90 is zero (infeasible). -/
theorem streamlPy_fitness_cfgA0 :
    StreamlPy.fitness (cfgA 0) catA 90 90 = .ok 0 := by
  rw [StreamlPy.fitness]
  simp only [fitnessTotals_cfgA0]
  norm_num

/-- Cost of one demonstration unit. -/
theorem cost_cfgA1 : GAcore.calculate_cost (cfgA 1) catA = .ok 1 := by
  norm_num [cfgA, GAcore.calculate_cost, findInstance_catA, specA]

/-- Cost of the all-zero demonstration configuration. -/
theorem cost_cfgA0 : GAcore.calculate_cost (cfgA 0) catA = .ok 0 := by
  norm_num [cfgA, GAcore.calculate_cost, findInstance_catA, specA]

/-- Cost of ten demonstration units. -/
theorem cost_cfgA10 : GAcore.calculate_cost [(idA, 10)] catA = .ok 10 := by
  norm_num [GAcore.calculate_cost, findInstance_catA, specA]

/-- Aggregate vCPU sum of one demonstration unit. -/
theorem sumVCPUs_cfgA1 : GAcore.sumVCPUs catA (cfgA 1) = .ok 100 := by
  norm_num [cfgA, GAcore.sumVCPUs, findInstance_catA, specA]

/-- Aggregate memory sum of one demonstration unit. -/
theorem sumMemory_cfgA1 : GAcore.sumMemory catA (cfgA 1) = .ok 100 := by
  norm_num [cfgA, GAcore.sumMemory, findInstance_catA, specA]

/-- Aggregate vCPU sum of the all-zero demonstration configuration. -/
theorem sumVCPUs_cfgA0 : GAcore.sumVCPUs catA (cfgA 0) = .ok 0 := by
  norm_num [cfgA, GAcore.sumVCPUs, findInstance_catA, specA]

/-- Aggregate memory sum of the all-zero demonstration configuration. -/
theorem sumMemory_cfgA0 : GAcore.sumMemory catA (cfgA 0) = .ok 0 := by
  norm_num [cfgA, GAcore.sumMemory, findInstance_catA, specA]

/-- Constant-source generation, integer stream 1, Stream.py. -/
theorem streamPy_generate_const1 (fp ip : ℕ) :
    StreamPy.generate_solution catA (constRand 1 fp ip) =
      (cfgA 1, constRand 1 fp (ip + 1)) := rfl

/-- Constant-source generation, integer stream 0, Stream.py. -/
theorem streamPy_generate_const0 (fp ip : ℕ) :
    StreamPy.generate_solution catA (constRand 0 fp ip) =
      (cfgA 0, constRand 0 fp (ip + 1)) := rfl

/-- Constant-source generation, integer stream 1, Streaml.py. -/
theorem streamlPy_generate_const1 (fp ip : ℕ) :
    StreamlPy.generate_solution catA (constRand 1 fp ip) =
      (cfgA 1, constRand 1 fp (ip + 1)) := rfl

/-- Constant-source generation, integer stream 0, Streaml.py. -/
theorem streamlPy_generate_const0 (fp ip : ℕ) :
    StreamlPy.generate_solution catA (constRand 0 fp ip) =
      (cfgA 0, constRand 0 fp (ip + 1)) := rfl

/-- Full Stream.py optimiser run under the constant source with integer
stream 1: every configuration ever built is one demonstration unit, which
passes the final feasibility re-check against requirement 90/90. -/
theorem streamPy_ga_const1 (gens fp ip : ℕ) :
    StreamPy.genetic_algorithm catA 90 90 20 gens (1/10) (constRand 1 fp ip) =
      .ok (some (cfgA 1)) := by
  have hinit := initPopulation_const streamPy_generate_const1 20 fp ip
  obtain ⟨fp', ip', hloop⟩ :=
    @gaLoop_const (fun c => StreamPy.fitness c catA 90 90) 1 (100/81)
      streamPy_fitness_cfgA1 20 (by norm_num) 1 gens fp (ip + 20)
  have hmax := @maxByFitness_allEq (fun c => StreamPy.fitness c catA 90 90)
    (cfgA 1) (100/81) streamPy_fitness_cfgA1 (List.replicate 20 (cfgA 1))
    (by rw [← List.length_pos, List.length_replicate]; omega)
    (fun x hx => List.eq_of_mem_replicate hx)
  rw [StreamPy.genetic_algorithm]
  simp only [hinit, hloop, hmax, sumVCPUs_cfgA1, sumMemory_cfgA1]
  norm_num

/-- Full Stream.py optimiser run under the constant source with integer
stream 0: every configuration ever built is the all-zero configuration,
which fails the final feasibility re-check, so the optimiser returns
`None`. -/
theorem streamPy_ga_const0 (gens fp ip : ℕ) :
    StreamPy.genetic_algorithm catA 90 90 20 gens (1/10) (constRand 0 fp ip) =
      .ok none := by
  have hinit := initPopulation_const streamPy_generate_const0 20 fp ip
  obtain ⟨fp', ip', hloop⟩ :=
    @gaLoop_const (fun c => StreamPy.fitness c catA 90 90) 0 0
      streamPy_fitness_cfgA0 20 (by norm_num) 0 gens fp (ip + 20)
  have hmax := @maxByFitness_allEq (fun c => StreamPy.fitness c catA 90 90)
    (cfgA 0) 0 streamPy_fitness_cfgA0 (List.replicate 20 (cfgA 0))
    (by rw [← List.length_pos, List.length_replicate]; omega)
    (fun x hx => List.eq_of_mem_replicate hx)
  rw [StreamPy.genetic_algorithm]
  simp only [hinit, hloop, hmax, sumVCPUs_cfgA0, sumMemory_cfgA0]
  norm_num

/-- Full Streaml.py optimiser run under the constant source with integer
stream 1: the result is one demonstration unit. -/
theorem streamlPy_ga_const1 (gens fp ip : ℕ) :
    StreamlPy.genetic_algorithm catA 90 90 20 gens (1/10) (constRand 1 fp ip) =
      .ok (cfgA 1) := by
  have hinit := initPopulation_const streamlPy_generate_const1 20 fp ip
  obtain ⟨fp', ip', hloop⟩ :=
    @gaLoop_const (fun c => StreamlPy.fitness c catA 90 90) 1 (9/11)
      streamlPy_fitness_cfgA1 20 (by norm_num) 1 gens fp (ip + 20)
  have hmax := @maxByFitness_allEq (fun c => StreamlPy.fitness c catA 90 90)
    (cfgA 1) (9/11) streamlPy_fitness_cfgA1 (List.replicate 20 (cfgA 1))
    (by rw [← List.length_pos, List.length_replicate]; omega)
    (fun x hx => List.eq_of_mem_replicate hx)
  rw [StreamlPy.genetic_algorithm]
  simp only [hinit, hloop, hmax]

/-- Full Streaml.py optimiser run under the constant source with integer
stream 0: the result is the (infeasible) all-zero configuration. -/
theorem streamlPy_ga_const0 (gens fp ip : ℕ) :
    StreamlPy.genetic_algorithm catA 90 90 20 gens (1/10) (constRand 0 fp ip) =
      .ok (cfgA 0) := by
  have hinit := initPopulation_const streamlPy_generate_const0 20 fp ip
  obtain ⟨fp', ip', hloop⟩ :=
    @gaLoop_const (fun c => StreamlPy.fitness c catA 90 90) 0 0
      streamlPy_fitness_cfgA0 20 (by norm_num) 0 gens fp (ip + 20)
  have hmax := @maxByFitness_allEq (fun c => StreamlPy.fitness c catA 90 90)
    (cfgA 0) 0 streamlPy_fitness_cfgA0 (List.replicate 20 (cfgA 0))
    (by rw [← List.length_pos, List.length_replicate]; omega)
    (fun x hx => List.eq_of_mem_replicate hx)
  rw [StreamlPy.genetic_algorithm]
  simp only [hinit, hloop, hmax]

end ConcreteEval

section ScalingCharacterization

/-- Stream.py scaling analysis, guard path: a `None` optimiser result yields
the Upgrade/no-configuration/zero-savings answer. -/
theorem streamPy_scaling_guard {cur : Config} {avgV avgM : ℚ} {cat : Catalog}
    {rs : RandomState} {cc : ℚ}
    (hcost : GAcore.calculate_cost cur cat = .ok cc)
    (hga : StreamPy.genetic_algorithm cat avgV avgM 20 100 (1/10) rs = .ok none) :
    StreamPy.scaling_analysis cur avgV avgM cat rs = .ok ("Upgrade", none, cc, 0) := by
  rw [StreamPy.scaling_analysis]
  simp only [hcost, hga]

/-- Stream.py scaling analysis, normal path: with a non-empty optimiser
result the answer is computed from the two costs and the utilisation
figures. -/
theorem streamPy_scaling_eq {cur : Config} {avgV avgM : ℚ} {cat : Catalog}
    {rs : RandomState} {cc : ℚ} {cfg : Config} {oc : ℚ}
    (hcost : GAcore.calculate_cost cur cat = .ok cc)
    (hga : StreamPy.genetic_algorithm cat avgV avgM 20 100 (1/10) rs = .ok (some cfg))
    (hne : cfg ≠ [])
    (hoc : GAcore.calculate_cost cfg cat = .ok oc) :
    StreamPy.scaling_analysis cur avgV avgM cat rs =
      .ok (if cc < oc then "Upgrade"
           else if 5 < cc - oc ∧ avgV < 80 ∧ avgM < 80 then "Downgrade" else "Optimal",
           some (cfg.filter (fun kv => decide (0 < kv.2))), oc, cc - oc) := by
  rw [StreamPy.scaling_analysis]
  simp only [hcost, hga, if_neg hne, hoc]

/-- Streaml.py scaling analysis, guard path for an empty optimiser result. -/
theorem streamlPy_scaling_guard_empty {cur : Config} {avgV avgM : ℚ} {cat : Catalog}
    {rs : RandomState} {cc : ℚ}
    (hcost : GAcore.calculate_cost cur cat = .ok cc)
    (hga : StreamlPy.genetic_algorithm cat avgV avgM 20 100 (1/10) rs = .ok []) :
    StreamlPy.scaling_analysis cur avgV avgM cat rs = .ok ("Upgrade", none, cc, 0) := by
  rw [StreamlPy.scaling_analysis]
  simp only [hcost, hga, if_pos trivial, eq_self_iff_true, if_true]

/-- Streaml.py scaling analysis, guard path: a candidate failing the
feasibility re-check yields the Upgrade/no-configuration/zero-savings
answer. -/
theorem streamlPy_scaling_guard_infeasible {cur : Config} {avgV avgM : ℚ}
    {cat : Catalog} {rs : RandomState} {cc : ℚ} {cfg : Config} {oc tv tm : ℚ}
    (hcost : GAcore.calculate_cost cur cat = .ok cc)
    (hga : StreamlPy.genetic_algorithm cat avgV avgM 20 100 (1/10) rs = .ok cfg)
    (hne : cfg ≠ [])
    (hoc : GAcore.calculate_cost cfg cat = .ok oc)
    (htv : GAcore.sumVCPUs cat cfg = .ok tv)
    (htm : GAcore.sumMemory cat cfg = .ok tm)
    (hfeas : tv < avgV ∨ tm < avgM) :
    StreamlPy.scaling_analysis cur avgV avgM cat rs = .ok ("Upgrade", none, cc, 0) := by
  rw [StreamlPy.scaling_analysis]
  simp only [hcost, hga, if_neg hne, hoc, htv, htm, if_pos hfeas]

/-- Streaml.py scaling analysis, normal path: with a non-empty feasible
candidate the answer is computed from the two costs alone. -/
theorem streamlPy_scaling_eq {cur : Config} {avgV avgM : ℚ} {cat : Catalog}
    {rs : RandomState} {cc : ℚ} {cfg : Config} {oc tv tm : ℚ}
    (hcost : GAcore.calculate_cost cur cat = .ok cc)
    (hga : StreamlPy.genetic_algorithm cat avgV avgM 20 100 (1/10) rs = .ok cfg)
    (hne : cfg ≠ [])
    (hoc : GAcore.calculate_cost cfg cat = .ok oc)
    (htv : GAcore.sumVCPUs cat cfg = .ok tv)
    (htm : GAcore.sumMemory cat cfg = .ok tm)
    (hfeas : ¬(tv < avgV ∨ tm < avgM)) :
    StreamlPy.scaling_analysis cur avgV avgM cat rs =
      .ok (if cc < oc then "Upgrade"
           else if 5 < cc - oc then "Downgrade" else "Optimal",
           some cfg, oc, cc - oc) := by
  rw [StreamlPy.scaling_analysis]
  simp only [hcost, hga, if_neg hne, hoc, htv, htm, if_neg hfeas]

end ScalingCharacterization

section ConcreteScaling

/-- Full Stream.py scaling run: current configuration of ten units (cost
10), optimiser returns one unit (cost 1), savings 9 exceed the threshold 5 —
but because the utilisation figures 90/90 are not below 80 the decision is
`Optimal`, not `Downgrade`. -/
theorem streamPy_scaling_const1 :
    StreamPy.scaling_analysis [(idA, 10)] 90 90 catA (constRand 1 0 0) =
      .ok ("Optimal", some (cfgA 1), 1, 9) := by
  rw [streamPy_scaling_eq cost_cfgA10 (streamPy_ga_const1 100 0 0)
    (by simp [cfgA]) cost_cfgA1]
  have h1 : ¬((10 : ℚ) < 1) := by norm_num
  have h2 : ¬(5 < (10 : ℚ) - 1 ∧ (90 : ℚ) < 80 ∧ (90 : ℚ) < 80) := by norm_num
  rw [if_neg h1, if_neg h2]
  have h3 : List.filter (fun kv => decide (0 < kv.2)) (cfgA 1) = cfgA 1 := by
    simp [cfgA]
  rw [h3]
  norm_num

/-- Full Streaml.py scaling run on the same inputs: decision `Downgrade`
with savings 9, depending only on the two costs. -/
theorem streamlPy_scaling_const1 :
    StreamlPy.scaling_analysis [(idA, 10)] 90 90 catA (constRand 1 0 0) =
      .ok ("Downgrade", some (cfgA 1), 1, 9) := by
  rw [streamlPy_scaling_eq cost_cfgA10 (streamlPy_ga_const1 100 0 0)
    (by simp [cfgA]) cost_cfgA1 sumVCPUs_cfgA1 sumMemory_cfgA1
    (by norm_num)]
  have h1 : ¬((10 : ℚ) < 1) := by norm_num
  have h2 : (5 : ℚ) < 10 - 1 := by norm_num
  rw [if_neg h1, if_pos h2]
  norm_num

end ConcreteScaling

section ErrorLemmas

/-- The fitness accumulation loop raises `StopIteration` whenever some key
fails to resolve. -/
theorem fitnessTotals_error_of_bad {cat : Catalog} {sol : Config}
    (hbad : ∃ k ∈ keysOf sol, findInstance cat k = none) (acc : ℚ × ℚ × ℚ) :
    GAcore.fitnessTotals cat sol acc = .error .stopIteration := by
  induction sol generalizing acc with
  | nil =>
    obtain ⟨k, hk, -⟩ := hbad
    simp [keysOf] at hk
  | cons kv rest ih =>
    obtain ⟨name, count⟩ := kv
    obtain ⟨tv, tm, tc⟩ := acc
    rcases hfind : findInstance cat name with _ | d
    · rw [GAcore.fitnessTotals, hfind]
    · rw [GAcore.fitnessTotals, hfind]
      obtain ⟨k, hk, hknone⟩ := hbad
      simp only [keysOf, List.map_cons, List.mem_cons] at hk
      rcases hk with hk' | hk'
      · rw [hk'] at hknone
        rw [hknone] at hfind
        exact absurd hfind (by simp)
      · exact ih ⟨k, hk', hknone⟩ _

/-- `calculate_cost` raises `RuntimeError` whenever some key fails to
resolve. -/
theorem calculate_cost_error_of_bad {cat : Catalog} {sol : Config}
    (hbad : ∃ k ∈ keysOf sol, findInstance cat k = none) :
    GAcore.calculate_cost sol cat = .error .runtimeError := by
  induction sol with
  | nil =>
    obtain ⟨k, hk, -⟩ := hbad
    simp [keysOf] at hk
  | cons kv rest ih =>
    obtain ⟨name, count⟩ := kv
    rcases hfind : findInstance cat name with _ | d
    · rw [GAcore.calculate_cost, hfind]
    · rw [GAcore.calculate_cost, hfind]
      obtain ⟨k, hk, hknone⟩ := hbad
      simp only [keysOf, List.map_cons, List.mem_cons] at hk
      rcases hk with hk' | hk'
      · rw [hk'] at hknone
        rw [hknone] at hfind
        exact absurd hfind (by simp)
      · rw [ih ⟨k, hk', hknone⟩]

end ErrorLemmas

section MoreGALemmas

/-- A successful Stream.py optimiser run that passes the feasibility
re-check returns a configuration keyed by exactly the catalog's id list. -/
theorem streamPy_ga_ok_keys {cat : Catalog} {reqV reqM : ℚ} {ps gens : ℕ} {rate : ℚ}
    {rs : RandomState} {cfg : Config}
    (h : StreamPy.genetic_algorithm cat reqV reqM ps gens rate rs = .ok (some cfg)) :
    keysOf cfg = catIds cat := by
  rcases hinit : GAcore.initPopulation (StreamPy.generate_solution cat) ps rs
    with ⟨pop0, rs0⟩
  simp only [StreamPy.genetic_algorithm, hinit] at h
  split at h
  · exact absurd h (by simp)
  · rename_i popF rs1 hloop
    split at h
    · exact absurd h (by simp)
    · rename_i best hmax
      split at h
      · exact absurd h (by simp)
      · split at h
        · exact absurd h (by simp)
        · split at h
          · exact absurd h (by simp)
          · injection h with h
            injection h with h
            have hpop0 : ∀ c ∈ pop0, keysOf c = catIds cat := by
              have := initPopulation_mem (fun rs => streamPy_generate_keys cat rs) ps rs
              rw [hinit] at this
              exact this
            rw [← h]
            exact gaLoop_ok_keys hpop0 hloop best (maxByFitness_ok_mem hmax)

/-- A concrete firing mutation: on the two-unit demonstration configuration
with rate 1 the coin fires, the single key is selected, and the sign draw
(integer stream 1) increments the count. -/
theorem mutate_fire_const :
    GAcore.mutate (cfgA 2) 1 (constRand 1 0 0) = .ok ([(idA, 3)], constRand 1 1 2) := by
  simp only [cfgA, GAcore.mutate, randFloat, randIntMod, constRand]
  rw [if_pos (by norm_num : (1 : ℚ)/2 < 1)]
  norm_num [keysOf, GAcore.setKey, GAcore.noKey, List.lookup]

end MoreGALemmas

section Claims

/-- C1: Feasibility monotonicity of the fitness evaluator — for every
configuration whose ids all occur in the catalog and every requirement, if
either file's `fitness` returns a score strictly greater than 0, then the
configuration's aggregate vCPUs (sum of count × spec.vcpus) is at least the
required vCPUs and its aggregate memory is at least the required memory. -/
theorem claim_C1_fitness_feasibility_monotonicity
    (sol : Config) (cat : Catalog) (reqV reqM s : ℚ)
    (hids : ∀ k ∈ keysOf sol, (findInstance cat k).isSome) :
    (StreamPy.fitness sol cat reqV reqM = .ok s → 0 < s →
      reqV ≤ aggVCPUs sol cat ∧ reqM ≤ aggMemory sol cat)
    ∧ (StreamlPy.fitness sol cat reqV reqM = .ok s → 0 < s →
      reqV ≤ aggVCPUs sol cat ∧ reqM ≤ aggMemory sol cat) :=
  ⟨fun h hs => streamPy_fitness_pos_feasible h hs,
   fun h hs => streamlPy_fitness_pos_feasible h hs⟩

/-- C1 witness: one demonstration unit has positive Stream.py fitness
against requirement 90/90 and indeed covers it. -/
theorem claim_C1_witness :
    (90 : ℚ) ≤ aggVCPUs (cfgA 1) catA ∧ (90 : ℚ) ≤ aggMemory (cfgA 1) catA :=
  (claim_C1_fitness_feasibility_monotonicity (cfgA 1) catA 90 90 (100/81)
      (by intro k hk; simp [cfgA, keysOf] at hk; subst hk; simp [findInstance_catA])).1
    streamPy_fitness_cfgA1 (by norm_num)

/-- C2 counterexample: on one demonstration unit (total cost 1, requirement
90/90) Stream.py's fitness is `100/81`, which exceeds `1/total_cost = 1` —
so the score is NOT one of the two sanctioned policies (plain `1/cost` or
the surplus-penalised score, both of which are at most `1/cost` here), and
the bound "never exceeds 1/total_cost" fails. -/
theorem claim_C2_counterexample :
    StreamPy.fitness (cfgA 1) catA 90 90 = .ok (100/81) ∧
    GAcore.calculate_cost (cfgA 1) catA = .ok 1 ∧
    ¬((100/81 : ℚ) ≤ 1 / 1) ∧
    (100/81 : ℚ) ≠ 1 / 1 ∧
    (100/81 : ℚ) ≠ (1 / 1) / (1 + ((100 - 90) / 90 + (100 - 90) / 90)) :=
  ⟨streamPy_fitness_cfgA1, cost_cfgA1, by norm_num, by norm_num, by norm_num⟩

/-- C2 (amended): on a feasible configuration with positive requirement and
positive total cost, Streaml.py's fitness is the surplus-penalised policy
`(1/cost)/(1 + surplus)` and never exceeds `1/cost`, while Stream.py's
fitness is a third policy `(1/cost)·(tv/reqV)·(tm/reqM)` — a surplus reward
that is always at least `1/cost`. -/
theorem claim_C2_fitness_policy_amended
    (sol : Config) (cat : Catalog) (reqV reqM tv tm tc : ℚ)
    (htot : GAcore.fitnessTotals cat sol (0, 0, 0) = .ok (tv, tm, tc))
    (hfv : reqV ≤ tv) (hfm : reqM ≤ tm)
    (hrv : 0 < reqV) (hrm : 0 < reqM) (htc : 0 < tc) :
    (StreamlPy.fitness sol cat reqV reqM =
        .ok ((1 / tc) / (1 + ((tv - reqV) / reqV + (tm - reqM) / reqM)))
      ∧ (1 / tc) / (1 + ((tv - reqV) / reqV + (tm - reqM) / reqM)) ≤ 1 / tc)
    ∧ (StreamPy.fitness sol cat reqV reqM = .ok ((1 / tc) * (tv / reqV) * (tm / reqM))
      ∧ 1 / tc ≤ (1 / tc) * (tv / reqV) * (tm / reqM)) := by
  obtain ⟨hl, hs⟩ := fitness_feasible_closed_forms htot hfv hfm hrv hrm htc
  exact ⟨⟨hl, penalised_le_plain hfv hfm hrv hrm htc⟩,
    ⟨hs, plain_le_rewarded hfv hfm hrv hrm htc⟩⟩

/-- C2 witness: the amended policy characterisation instantiated on one
demonstration unit against requirement 90/90. -/
theorem claim_C2_witness :
    (StreamlPy.fitness (cfgA 1) catA 90 90 =
        .ok ((1 / 1) / (1 + ((100 - 90) / 90 + (100 - 90) / 90)))
      ∧ ((1 : ℚ) / 1) / (1 + ((100 - 90) / 90 + (100 - 90) / 90)) ≤ 1 / 1)
    ∧ (StreamPy.fitness (cfgA 1) catA 90 90 = .ok ((1 / 1) * (100 / 90) * (100 / 90))
      ∧ (1 : ℚ) / 1 ≤ (1 / 1) * (100 / 90) * (100 / 90)) :=
  claim_C2_fitness_policy_amended (cfgA 1) catA 90 90 100 100 1
    fitnessTotals_cfgA1 (by norm_num) (by norm_num) (by norm_num) (by norm_num)
    (by norm_num)

/-- C3 counterexample: a full Stream.py `scaling_analysis` run (catalog of
one 100-vCPU instance, current configuration of ten units costing 10,
optimal configuration of one unit costing 1) has savings 9 above the
threshold 5 and `optimal_cost ≤ current_cost`, yet the decision is
`Optimal`, not `Downgrade` — because Stream.py line 75 additionally
requires both utilisation figures (here 90) to be below 80, the decision
does not depend only on the two costs and the threshold. -/
theorem claim_C3_counterexample :
    StreamPy.scaling_analysis [(idA, 10)] 90 90 catA (constRand 1 0 0) =
      .ok ("Optimal", some (cfgA 1), 1, 9) ∧
    (5 : ℚ) < 10 - 1 ∧ ¬((1 : ℚ) > 10) ∧ "Optimal" ≠ "Downgrade" :=
  ⟨streamPy_scaling_const1, by norm_num, by norm_num, by decide⟩

/-- C3 (amended): whenever `scaling_analysis` reports a decision together
with an optimal configuration, Streaml.py's decision follows exactly the
claimed order (Upgrade if `optimal_cost > current_cost`, else Downgrade if
`savings > 5`, else Optimal) and depends only on the two costs; Stream.py
follows the same order but additionally requires both utilisation figures
to be below the hard-coded threshold 80 for a Downgrade, so its decision
also depends on the requirement input. -/
theorem claim_C3_decision_policy_amended
    (cur : Config) (avgV avgM : ℚ) (cat : Catalog) (rs : RandomState)
    (d : String) (opt : Config) (oc sv : ℚ) :
    (StreamlPy.scaling_analysis cur avgV avgM cat rs = .ok (d, some opt, oc, sv) →
      ∃ cc, GAcore.calculate_cost cur cat = .ok cc ∧ sv = cc - oc ∧
        d = (if cc < oc then "Upgrade"
             else if 5 < cc - oc then "Downgrade" else "Optimal"))
    ∧ (StreamPy.scaling_analysis cur avgV avgM cat rs = .ok (d, some opt, oc, sv) →
      ∃ cc, GAcore.calculate_cost cur cat = .ok cc ∧ sv = cc - oc ∧
        d = (if cc < oc then "Upgrade"
             else if 5 < cc - oc ∧ avgV < 80 ∧ avgM < 80 then "Downgrade"
             else "Optimal")) := by
  constructor
  · intro h
    rw [StreamlPy.scaling_analysis] at h
    split at h
    · exact absurd h (by simp)
    · rename_i cc hcost
      split at h
      · exact absurd h (by simp)
      · rename_i cfg hga
        split at h
        · exact absurd h (by simp)
        · split at h
          · exact absurd h (by simp)
          · rename_i oc' hoc
            split at h
            · exact absurd h (by simp)
            · rename_i tv htv
              split at h
              · exact absurd h (by simp)
              · rename_i tm htm
                split at h
                · exact absurd h (by simp)
                · injection h with h
                  simp only [Prod.mk.injEq] at h
                  obtain ⟨hd, -, hoce, hsv⟩ := h
                  exact ⟨cc, hcost, by rw [← hsv, hoce], by rw [← hd, hoce]⟩
  · intro h
    rw [StreamPy.scaling_analysis] at h
    split at h
    · exact absurd h (by simp)
    · rename_i cc hcost
      split at h
      · exact absurd h (by simp)
      · exact absurd h (by simp)
      · rename_i cfg hga
        split at h
        · exact absurd h (by simp)
        · split at h
          · exact absurd h (by simp)
          · rename_i oc' hoc
            injection h with h
            simp only [Prod.mk.injEq] at h
            obtain ⟨hd, -, hoce, hsv⟩ := h
            exact ⟨cc, hcost, by rw [← hsv, hoce], by rw [← hd, hoce]⟩

/-- C3 witness: the amended policy applied to a full Streaml.py run with
current cost 10 and optimal cost 1, giving decision Downgrade with savings
9. -/
theorem claim_C3_witness :
    ∃ cc, GAcore.calculate_cost [(idA, 10)] catA = .ok cc ∧ (9 : ℚ) = cc - 1 ∧
      "Downgrade" = (if cc < (1 : ℚ) then "Upgrade"
                     else if 5 < cc - 1 then "Downgrade" else "Optimal") :=
  (claim_C3_decision_policy_amended [(idA, 10)] 90 90 catA (constRand 1 0 0)
    "Downgrade" (cfgA 1) 1 9).1 streamlPy_scaling_const1

/-- C4: Degenerate-infeasibility guard — whenever the optimiser's candidate
fails the feasibility re-check (for Stream.py the re-check lives inside
`genetic_algorithm`, which then returns `None`; for Streaml.py the re-check
is the aggregate comparison inside `scaling_analysis`), `scaling_analysis`
returns decision `Upgrade` with a null optimal configuration and savings 0,
raising nothing and never reporting `Optimal`. -/
theorem claim_C4_degenerate_guard
    (cur : Config) (avgV avgM : ℚ) (cat : Catalog) (rs : RandomState) (cc : ℚ)
    (hcost : GAcore.calculate_cost cur cat = .ok cc) :
    (StreamPy.genetic_algorithm cat avgV avgM 20 100 (1/10) rs = .ok none →
      StreamPy.scaling_analysis cur avgV avgM cat rs = .ok ("Upgrade", none, cc, 0))
    ∧ (∀ cfg oc tv tm,
        StreamlPy.genetic_algorithm cat avgV avgM 20 100 (1/10) rs = .ok cfg →
        GAcore.calculate_cost cfg cat = .ok oc →
        GAcore.sumVCPUs cat cfg = .ok tv →
        GAcore.sumMemory cat cfg = .ok tm →
        (tv < avgV ∨ tm < avgM) →
        StreamlPy.scaling_analysis cur avgV avgM cat rs =
          .ok ("Upgrade", none, cc, 0)) := by
  constructor
  · intro hga
    exact streamPy_scaling_guard hcost hga
  · intro cfg oc tv tm hga hoc htv htm hfeas
    by_cases hne : cfg = []
    · subst hne
      exact streamlPy_scaling_guard_empty hcost hga
    · exact streamlPy_scaling_guard_infeasible hcost hga hne hoc htv htm hfeas

/-- C4 witness: under the all-zero constant random source against
requirement 90/90, both analysers return the guarded
`("Upgrade", None, current cost, 0)` answer. -/
theorem claim_C4_witness :
    StreamPy.scaling_analysis (cfgA 1) 90 90 catA (constRand 0 0 0) =
      .ok ("Upgrade", none, 1, 0) ∧
    StreamlPy.scaling_analysis (cfgA 1) 90 90 catA (constRand 0 0 0) =
      .ok ("Upgrade", none, 1, 0) :=
  ⟨(claim_C4_degenerate_guard (cfgA 1) 90 90 catA (constRand 0 0 0) 1 cost_cfgA1).1
      (streamPy_ga_const0 100 0 0),
   (claim_C4_degenerate_guard (cfgA 1) 90 90 catA (constRand 0 0 0) 1 cost_cfgA1).2
      (cfgA 0) 0 0 0 (streamlPy_ga_const0 100 0 0) cost_cfgA0 sumVCPUs_cfgA0
      sumMemory_cfgA0 (Or.inl (by norm_num))⟩

/-- C5 counterexample: on the all-zero configuration with a zero requirement
(a case the claim explicitly includes) the all-zero aggregates pass the
feasibility test and both files then divide by zero: `fitness` raises
`ZeroDivisionError` instead of returning a number. -/
theorem claim_C5_counterexample :
    StreamPy.fitness (cfgA 0) catA 0 0 = .error .zeroDivision ∧
    StreamlPy.fitness (cfgA 0) catA 0 0 = .error .zeroDivision := by
  constructor
  · rw [StreamPy.fitness]
    simp only [fitnessTotals_cfgA0]
    norm_num [pyDiv]
  · rw [StreamlPy.fitness]
    simp only [fitnessTotals_cfgA0]
    norm_num [pyDiv]

/-- C5 (amended): for configurations whose ids all resolve, over a catalog
with positive prices and non-negative vCPU figures and against a strictly
positive requirement, both fitness functions are total and non-negative,
and return exactly 0 on every infeasible configuration; totality fails for
zero requirements (see the counterexample), where a feasible configuration
makes the code raise `ZeroDivisionError`. -/
theorem claim_C5_totality_amended
    (sol : Config) (cat : Catalog) (reqV reqM : ℚ)
    (hids : ∀ k ∈ keysOf sol, (findInstance cat k).isSome)
    (hcat : ∀ d ∈ cat, 0 < d.on_demand_hourly_price_usd ∧ 0 ≤ d.vCPUs)
    (hrv : 0 < reqV) (hrm : 0 < reqM) :
    (∃ s, StreamPy.fitness sol cat reqV reqM = .ok s ∧ 0 ≤ s)
    ∧ (∃ s, StreamlPy.fitness sol cat reqV reqM = .ok s ∧ 0 ≤ s)
    ∧ (aggVCPUs sol cat < reqV ∨ aggMemory sol cat < reqM →
        StreamPy.fitness sol cat reqV reqM = .ok 0 ∧
        StreamlPy.fitness sol cat reqV reqM = .ok 0) := by
  refine ⟨streamPy_fitness_total hids hcat hrv hrm,
    streamlPy_fitness_total hids hcat hrv hrm, fun hfeas => ?_⟩
  have htot := fitnessTotals_eq_agg hids 0 0 0
  simp only [zero_add] at htot
  constructor
  · rw [StreamPy.fitness, htot]
    simp only [if_pos hfeas]
  · rw [StreamlPy.fitness, htot]
    simp only [if_pos hfeas]

/-- C5 witness: the amended totality statement instantiated on the all-zero
configuration against requirement 90/90 (infeasible, fitness exactly 0). -/
theorem claim_C5_witness :
    (∃ s, StreamPy.fitness (cfgA 0) catA 90 90 = .ok s ∧ 0 ≤ s)
    ∧ (∃ s, StreamlPy.fitness (cfgA 0) catA 90 90 = .ok s ∧ 0 ≤ s)
    ∧ (aggVCPUs (cfgA 0) catA < 90 ∨ aggMemory (cfgA 0) catA < 90 →
        StreamPy.fitness (cfgA 0) catA 90 90 = .ok 0 ∧
        StreamlPy.fitness (cfgA 0) catA 90 90 = .ok 0) :=
  claim_C5_totality_amended (cfgA 0) catA 90 90
    (by intro k hk; simp [cfgA, keysOf] at hk; subst hk; simp [findInstance_catA])
    (by intro d hd; simp [catA] at hd; subst hd; constructor <;> norm_num [specA])
    (by norm_num) (by norm_num)

/-- C6 counterexample: under the all-zero constant random source, every
configuration the Stream.py optimiser ever builds is the all-zero one, the
final feasibility re-check against requirement 90/90 fails, and
`genetic_algorithm` returns `None` — on a non-empty catalog it does NOT
always return a configuration. -/
theorem claim_C6_counterexample :
    StreamPy.genetic_algorithm catA 90 90 20 100 (1/10) (constRand 0 0 0) = .ok none ∧
    catA ≠ [] :=
  ⟨streamPy_ga_const0 100 0 0, by simp [catA]⟩

/-- C6 (amended): on a non-empty catalog with positive prices and
non-negative vCPU figures, against a strictly positive requirement and with
at least one population member, neither optimiser raises; Streaml.py's
always returns a configuration, while Stream.py's returns either a
configuration or `None` (after its feasibility re-check), so "always
returns some configuration" holds only for Streaml.py. -/
theorem claim_C6_optimizer_totality_amended
    (cat : Catalog) (reqV reqM : ℚ) (ps gens : ℕ) (rate : ℚ) (rs : RandomState)
    (hcatne : cat ≠ [])
    (hcat : ∀ d ∈ cat, 0 < d.on_demand_hourly_price_usd ∧ 0 ≤ d.vCPUs)
    (hrv : 0 < reqV) (hrm : 0 < reqM) (hps : 1 ≤ ps) :
    (∃ cfg, StreamlPy.genetic_algorithm cat reqV reqM ps gens rate rs = .ok cfg)
    ∧ (∃ r, StreamPy.genetic_algorithm cat reqV reqM ps gens rate rs = .ok r) := by
  obtain ⟨cfg, hcfg, -⟩ := streamlPy_ga_total hcatne hcat hrv hrm hps gens rate rs
  obtain ⟨r, hr, -⟩ := streamPy_ga_total hcatne hcat hrv hrm hps gens rate rs
  exact ⟨⟨cfg, hcfg⟩, ⟨r, hr⟩⟩

/-- C6 witness: the amended totality applied to the demonstration catalog
with requirement 90/90 and the default optimiser parameters. -/
theorem claim_C6_witness :
    (∃ cfg, StreamlPy.genetic_algorithm catA 90 90 20 100 (1/10) (constRand 1 0 0) =
      .ok cfg)
    ∧ (∃ r, StreamPy.genetic_algorithm catA 90 90 20 100 (1/10) (constRand 1 0 0) =
      .ok r) :=
  claim_C6_optimizer_totality_amended catA 90 90 20 100 (1/10) (constRand 1 0 0)
    (by simp [catA])
    (by intro d hd; simp [catA] at hd; subst hd; constructor <;> norm_num [specA])
    (by norm_num) (by norm_num) (by norm_num)

/-- C7: Mutation boundedness — a successful application of `mutate` keeps
the key list, leaves the lookup of every key other than one chosen key
unchanged, and at the chosen key leaves the count unchanged or moves it by
exactly one (the decrement being the clamped `max(0, v - 1)`, which on `ℕ`
is truncated subtraction, so no count ever becomes negative). -/
theorem claim_C7_mutation_boundedness
    (sol : Config) (rate : ℚ) (rs : RandomState) (sol' : Config) (rs' : RandomState)
    (h : GAcore.mutate sol rate rs = .ok (sol', rs')) :
    keysOf sol' = keysOf sol ∧
    ∃ k0, (∀ k, k ≠ k0 → List.lookup k sol' = List.lookup k sol) ∧
      (∀ v v', List.lookup k0 sol = some v → List.lookup k0 sol' = some v' →
        v' = v ∨ v' = v + 1 ∨ v' = v - 1) :=
  ⟨mutate_ok_keys h, mutate_ok_changes h⟩

/-- C7 witness: a firing mutation on the two-unit demonstration
configuration changes only the single key, by exactly +1. -/
theorem claim_C7_witness :
    keysOf [(idA, 3)] = keysOf (cfgA 2) ∧
    ∃ k0, (∀ k, k ≠ k0 → List.lookup k [(idA, 3)] = List.lookup k (cfgA 2)) ∧
      (∀ v v', List.lookup k0 (cfgA 2) = some v → List.lookup k0 [(idA, 3)] = some v' →
        v' = v ∨ v' = v + 1 ∨ v' = v - 1) :=
  claim_C7_mutation_boundedness (cfgA 2) 1 (constRand 1 0 0) [(idA, 3)]
    (constRand 1 1 2) mutate_fire_const

/-- C8: Cost correctness — for every configuration whose ids all occur in
the catalog, `calculate_cost` returns the literal sum of
`count × hourly price` over its entries. -/
theorem claim_C8_cost_correctness
    (sol : Config) (cat : Catalog)
    (hids : ∀ k ∈ keysOf sol, (findInstance cat k).isSome) :
    GAcore.calculate_cost sol cat = .ok (aggCost sol cat) :=
  calculate_cost_eq_agg hids

/-- C8 witness: the spec's example — prices 0.10 and 0.20, configuration
`{A:2, B:1}` costs exactly 0.40, and the empty and all-zero configurations
cost 0. -/
theorem claim_C8_witness :
    GAcore.calculate_cost [(idA, 2), (idB, 1)] catAB =
      .ok (aggCost [(idA, 2), (idB, 1)] catAB) ∧
    aggCost [(idA, 2), (idB, 1)] catAB = 2/5 ∧
    GAcore.calculate_cost [] catAB = .ok 0 ∧
    GAcore.calculate_cost [(idA, 0), (idB, 0)] catAB =
      .ok (aggCost [(idA, 0), (idB, 0)] catAB) ∧
    aggCost [(idA, 0), (idB, 0)] catAB = 0 := by
  have hfA : findInstance catAB idA = some specCostA := rfl
  have hfB : findInstance catAB idB = some specCostB := rfl
  refine ⟨claim_C8_cost_correctness [(idA, 2), (idB, 1)] catAB ?_, ?_, rfl,
    claim_C8_cost_correctness [(idA, 0), (idB, 0)] catAB ?_, ?_⟩
  · intro k hk
    simp [keysOf] at hk
    rcases hk with hk | hk <;> subst hk <;> simp [hfA, hfB]
  · norm_num [aggCost, hfA, hfB, specCostA, specCostB]
  · intro k hk
    simp [keysOf] at hk
    rcases hk with hk | hk <;> subst hk <;> simp [hfA, hfB]
  · norm_num [aggCost, hfA, hfB, specCostA, specCostB]

/-- C9 counterexample: evaluating `fitness` or `calculate_cost` on a
configuration holding the unknown id `zz` fails with the generic built-in
errors (`StopIteration` from the bare `next` in the fitness loop,
`RuntimeError` from the `next` inside `calculate_cost`'s generator under
PEP 479) — not with the designated `ConfigurationError` the spec demands,
which the code never defines or raises. -/
theorem claim_C9_counterexample :
    StreamPy.fitness [(idZ, 1)] catA 1 1 = .error .stopIteration ∧
    StreamlPy.fitness [(idZ, 1)] catA 1 1 = .error .stopIteration ∧
    GAcore.calculate_cost [(idZ, 1)] catA = .error .runtimeError ∧
    PyError.stopIteration ≠ PyError.configurationError ∧
    PyError.runtimeError ≠ PyError.configurationError :=
  ⟨rfl, rfl, rfl, by decide, by decide⟩

/-- C9 (amended): for every configuration containing an id absent from the
catalog, both fitness functions fail with the generic `StopIteration` and
`calculate_cost` fails with the generic `RuntimeError`; the failure is
never silent (no zero-resource fallback), but it is not the designated
`ConfigurationError` either. -/
theorem claim_C9_unknown_id_amended
    (sol : Config) (cat : Catalog)
    (hbad : ∃ k ∈ keysOf sol, findInstance cat k = none) :
    (∀ reqV reqM, StreamPy.fitness sol cat reqV reqM = .error .stopIteration)
    ∧ (∀ reqV reqM, StreamlPy.fitness sol cat reqV reqM = .error .stopIteration)
    ∧ GAcore.calculate_cost sol cat = .error .runtimeError := by
  refine ⟨fun reqV reqM => ?_, fun reqV reqM => ?_, calculate_cost_error_of_bad hbad⟩
  · rw [StreamPy.fitness]
    simp only [fitnessTotals_error_of_bad hbad]
  · rw [StreamlPy.fitness]
    simp only [fitnessTotals_error_of_bad hbad]

/-- C9 witness: the amended error contract instantiated on the unknown id
`zz` against the demonstration catalog. -/
theorem claim_C9_witness :
    (∀ reqV reqM : ℚ, StreamPy.fitness [(idZ, 1)] catA reqV reqM =
      .error .stopIteration)
    ∧ (∀ reqV reqM : ℚ, StreamlPy.fitness [(idZ, 1)] catA reqV reqM =
      .error .stopIteration)
    ∧ GAcore.calculate_cost [(idZ, 1)] catA = .error .runtimeError :=
  claim_C9_unknown_id_amended [(idZ, 1)] catA
    ⟨idZ, by simp [keysOf], rfl⟩

/-- C10: Key-set preservation — `generate_solution` (both files) returns a
mapping keyed by exactly the catalog's instance-type ids; a successful
`crossover` child is keyed by the first parent's keys; a successful
`mutate` keeps its input's keys; and every configuration either optimiser
successfully returns is keyed by exactly the catalog's id list (one entry
per catalog id). -/
theorem claim_C10_keyset_preservation :
    (∀ (cat : Catalog) (rs : RandomState),
      keysOf (StreamPy.generate_solution cat rs).1 = catIds cat)
    ∧ (∀ (cat : Catalog) (rs : RandomState),
      keysOf (StreamlPy.generate_solution cat rs).1 = catIds cat)
    ∧ (∀ (p1 p2 : Config) (rs : RandomState) (child : Config) (rs' : RandomState),
      GAcore.crossover p1 p2 rs = .ok (child, rs') → keysOf child = keysOf p1)
    ∧ (∀ (sol : Config) (rate : ℚ) (rs : RandomState) (sol' : Config)
        (rs' : RandomState),
      GAcore.mutate sol rate rs = .ok (sol', rs') → keysOf sol' = keysOf sol)
    ∧ (∀ (cat : Catalog) (reqV reqM : ℚ) (ps gens : ℕ) (rate : ℚ) (rs : RandomState)
        (cfg : Config),
      StreamlPy.genetic_algorithm cat reqV reqM ps gens rate rs = .ok cfg →
      keysOf cfg = catIds cat)
    ∧ (∀ (cat : Catalog) (reqV reqM : ℚ) (ps gens : ℕ) (rate : ℚ) (rs : RandomState)
        (cfg : Config),
      StreamPy.genetic_algorithm cat reqV reqM ps gens rate rs = .ok (some cfg) →
      keysOf cfg = catIds cat) :=
  ⟨fun cat rs => streamPy_generate_keys cat rs,
   fun cat rs => streamlPy_generate_keys cat rs,
   fun _ _ _ _ _ h => crossover_ok_keys h,
   fun _ _ _ _ _ h => mutate_ok_keys h,
   fun _ _ _ _ _ _ _ _ h => streamlPy_ga_ok_keys h,
   fun _ _ _ _ _ _ _ _ h => streamPy_ga_ok_keys h⟩

/-- C10 witness: key-set preservation instantiated on the demonstration
catalog — a generated solution and a full Streaml.py optimiser result are
both keyed by exactly the catalog's id list. -/
theorem claim_C10_witness :
    keysOf (StreamPy.generate_solution catA (constRand 1 0 0)).1 = catIds catA ∧
    keysOf (cfgA 1) = catIds catA :=
  ⟨claim_C10_keyset_preservation.1 catA (constRand 1 0 0),
   claim_C10_keyset_preservation.2.2.2.2.1 catA 90 90 20 100 (1/10)
     (constRand 1 0 0) (cfgA 1) (streamlPy_ga_const1 100 0 0)⟩

end Claims
